import Mathlib

/-!
Verification of the "Last Card" rules engine (`src/engine/rules.ts`,
`src/engine/deck.ts`, `src/engine/types.ts`).

The TypeScript engine is shallowly embedded below.  Each definition mirrors
one source function; the doc comment on a definition names the function it
embeds.  Modelling conventions:

* JavaScript numbers used as non-negative integers/indices become `Nat`.
* `Card[]` becomes `List Card`; the top of a pile is the LAST list element,
  exactly as in the source (`discardPile[discardPile.length - 1]`, `pop()`).
* Nullable fields become `Option`.
* Places where the source would dereference `undefined` (an out-of-range
  player index, an empty discard pile, an empty play) throw at runtime in
  TypeScript; the embedding returns the input unchanged (for transitions)
  or an empty result (for queries) at exactly those points, and every
  theorem that touches such a point carries the corresponding
  well-formedness hypothesis, so nothing is ever proved about the crash
  states.
* `Math.random()`-driven choices are modelled by an arbitrary function
  `rand : Nat → Nat`; at loop index `i` the source computes
  `Math.floor(Math.random() * (i + 1)) ∈ {0, …, i}` and the model uses
  `rand i % (i + 1)`, which ranges over exactly the same values, so every
  run of the source corresponds to some `rand` and conversely.
-/

namespace LastCard

/-- The four suits (`Suit` in types.ts). -/
inductive Suit : Type
  | hearts | diamonds | clubs | spades
deriving DecidableEq, Repr

/-- The thirteen ranks (`Rank` in types.ts); `"A"` is `A`, `"2"` is `two`, …,
`"10"` is `ten`. -/
inductive Rank : Type
  | A | two | three | four | five | six | seven | eight | nine | ten | J | Q | K
deriving DecidableEq, Repr

/-- `Card` in types.ts. -/
structure Card : Type where
  rank : Rank
  suit : Suit
deriving DecidableEq, Repr

/-- `PlayerType` in types.ts. -/
inductive PlayerType : Type
  | human | ai
deriving DecidableEq, Repr

/-- `PlayerState` in types.ts. -/
structure PlayerState : Type where
  id : Nat
  hand : List Card
  playerType : PlayerType
  declaredLastCard : Bool
  lastCardPenalty : Bool
deriving DecidableEq, Repr

/-- `PendingEffects` in types.ts.  `forcedDrawCount` is only ever increased
or reset by the engine, so `Nat` is faithful. -/
structure PendingEffects : Type where
  forcedDrawCount : Nat
  skipNextPlayer : Bool
deriving DecidableEq, Repr

/-- The two kinds of seven dispute (`SevenDispute.kind` in types.ts). -/
inductive DisputeKind : Type
  | EFFECT | LAST_CARD
deriving DecidableEq, Repr

/-- `SevenDispute.effectSnapshot` in types.ts. -/
structure EffectSnapshot : Type where
  drawAmount : Nat
  skip : Bool
  responsiblePlayerId : Nat
deriving DecidableEq, Repr

/-- `SevenDispute` in types.ts. -/
structure SevenDispute : Type where
  kind : DisputeKind
  effectSnapshot : Option EffectSnapshot
  lastCardClaimPlayerId : Option Nat
  cancelled : Bool
  responderPlayerId : Nat
deriving DecidableEq, Repr

/-- `LastCardClaim` in types.ts. -/
structure LastCardClaim : Type where
  playerId : Nat
  turnNumberCreated : Nat
deriving DecidableEq, Repr

/-- `TurnPhase` in types.ts. -/
inductive TurnPhase : Type
  | waiting | playing | mustDraw | declaringSuit | canEnd | gameOver
deriving DecidableEq, Repr

/-- `PlayDirection` in rules.ts / types.ts: clockwise or counter-clockwise. -/
inductive PlayDirection : Type
  | CW | CCW
deriving DecidableEq, Repr

/-- `GameState` in types.ts.  `responsePhase : Bool` models the
`"responding" | null` union.  The payload types of the Jack/Ace response
windows are not part of the available source (only the fields' existence
is); the claims never inspect them, so they are modelled as `Option Unit`. -/
structure GameState : Type where
  players : List PlayerState
  currentPlayerIndex : Nat
  drawPile : List Card
  discardPile : List Card
  chosenSuit : Option Suit
  pendingEffects : PendingEffects
  turnPhase : TurnPhase
  winner : Option Nat
  lastPlayWasSpecial : Bool
  direction : PlayDirection
  responsePhase : Bool
  responseChainRank : Option Rank
  respondingPlayerIndex : Option Nat
  sevenDispute : Option SevenDispute
  lastCardClaim : Option LastCardClaim
  turnNumber : Nat
  jackResponse : Option Unit
  aceResponse : Option Unit
deriving DecidableEq, Repr

/-- `Play` in types.ts.  `activateEffect : Option Bool` models the optional
boolean (absent / true / false). -/
structure Play : Type where
  cards : List Card
  chosenSuit : Option Suit
  activateEffect : Option Bool
deriving DecidableEq, Repr

/-- `LegalPlay` in types.ts. -/
structure LegalPlay : Type where
  play : Play
  description : String
deriving DecidableEq, Repr

/-- `cardEquals` in types.ts: component-wise equality test. -/
def cardEquals (a b : Card) : Bool :=
  decide (a.rank = b.rank) && decide (a.suit = b.suit)

theorem cardEquals_iff (a b : Card) : cardEquals a b = true ↔ a = b := by
  cases a; cases b
  simp [cardEquals]

/-- Suit glyph used by `cardToString` in types.ts. -/
def suitToSymbol (s : Suit) : String :=
  match s with
  | .hearts => "♥"
  | .diamonds => "♦"
  | .clubs => "♣"
  | .spades => "♠"

/-- The rank strings of types.ts. -/
def rankToString (r : Rank) : String :=
  match r with
  | .A => "A" | .two => "2" | .three => "3" | .four => "4" | .five => "5"
  | .six => "6" | .seven => "7" | .eight => "8" | .nine => "9" | .ten => "10"
  | .J => "J" | .Q => "Q" | .K => "K"

/-- The suit name strings of types.ts (used in play descriptions). -/
def suitToString (s : Suit) : String :=
  match s with
  | .hearts => "hearts" | .diamonds => "diamonds" | .clubs => "clubs" | .spades => "spades"

/-- `cardToString` in types.ts. -/
def cardToString (c : Card) : String :=
  rankToString c.rank ++ suitToSymbol c.suit

/-- `SUITS` in deck.ts. -/
def SUITS : List Suit := [.hearts, .diamonds, .clubs, .spades]

/-- `RANKS` in deck.ts. -/
def RANKS : List Rank :=
  [.A, .two, .three, .four, .five, .six, .seven, .eight, .nine, .ten, .J, .Q, .K]

/-- `createDeck` in deck.ts: all 52 cards, suits outer loop, ranks inner. -/
def createDeck : List Card :=
  SUITS.flatMap fun s => RANKS.map fun r => ⟨r, s⟩

/-- Exchange the elements at positions `i` and `j`
(`[result[i], result[j]] = [result[j], result[i]]` in deck.ts's `shuffle`).
Out-of-range indices leave the list unchanged; the shuffles below only ever
use in-range indices. -/
def listSwap (l : List Card) (i j : Nat) : List Card :=
  match l.get? i, l.get? j with
  | some a, some b => (l.set i b).set j a
  | _, _ => l

/-- One step of the linear congruential generator of `createSeededRng` in
deck.ts: `state = (state * 1664525 + 1013904223) >>> 0`.  All intermediate
values fit in an IEEE double exactly, so the `>>> 0` is exactly `% 2^32`. -/
def lcgNext (s : Nat) : Nat :=
  (s * 1664525 + 1013904223) % 4294967296

/-- The Fisher–Yates loop of `shuffle` in deck.ts driven by `createSeededRng`:
the argument `i + 1` is the current loop index; the generator is advanced
once and `j = Math.floor(rng() * (index + 1))`, which for the LCG value
`s' < 2^32` is exactly `s' * (index + 1) / 2^32` in integer arithmetic. -/
def fySeeded : List Card → Nat → Nat → List Card × Nat
  | l, s, 0 => (l, s)
  | l, s, i + 1 =>
      let s' := lcgNext s
      let j := s' * (i + 2) / 4294967296
      fySeeded (listSwap l (i + 1) j) s' i

/-- `shuffle(array, createSeededRng(seed))` in deck.ts. -/
def shuffleSeeded (l : List Card) (seed : Nat) : List Card :=
  (fySeeded l seed (l.length - 1)).1

/-- The Fisher–Yates loop of `shuffle` in deck.ts driven by `Math.random`:
the random index for loop position `i + 1` is modelled as
`rand (i + 1) % (i + 2)`, which ranges over the same set
`{0, …, i + 1}` as `Math.floor(Math.random() * (i + 2))`. -/
def fyRand (rand : Nat → Nat) : List Card → Nat → List Card
  | l, 0 => l
  | l, i + 1 => fyRand rand (listSwap l (i + 1) (rand (i + 1) % (i + 2))) i

/-- `shuffle(array)` in deck.ts with the default `Math.random` source,
parameterised by the choice function `rand`. -/
def shuffleRand (rand : Nat → Nat) (l : List Card) : List Card :=
  fyRand rand l (l.length - 1)

/-- `INITIAL_HAND_SIZE` in rules.ts. -/
def INITIAL_HAND_SIZE : Nat := 7

/-- `getNextPlayerIndex` in rules.ts.  For `CCW` the source computes
`(fromIndex - 1 + playerCount) % playerCount`; written in `Nat` as
`(fromIndex + playerCount - 1) % playerCount`, identical for every
non-negative index and positive player count. -/
def getNextPlayerIndex (state : GameState) (fromIndex : Nat) : Nat :=
  let playerCount := state.players.length
  match state.direction with
  | .CCW => (fromIndex + playerCount - 1) % playerCount
  | .CW => (fromIndex + 1) % playerCount

/-- The per-player dealing loop of `initializeGame` in rules.ts:
`deck.splice(0, INITIAL_HAND_SIZE)` per player, ids counting up from
`startId`, one `PlayerType` per player. -/
def dealLoop : List Card → List PlayerType → Nat → List PlayerState × List Card
  | deck, [], _ => ([], deck)
  | deck, t :: ts, i =>
      let hand := deck.take INITIAL_HAND_SIZE
      let rest := deck.drop INITIAL_HAND_SIZE
      let (ps, finalDeck) := dealLoop rest ts (i + 1)
      (⟨i, hand, t, false, false⟩ :: ps, finalDeck)

/-- The body of `initializeGame` in rules.ts after the deck has been
shuffled: validates the player count and the `playerTypes` length, deals
seven cards per player, flips the last remaining card (`deck.pop()!`) onto
the discard pile and builds the initial state.  The two `throw`s of the
source become `Except.error`; the `!` assertion on `deck.pop()` cannot fire
for a 52-card deck and 2–4 players, and is modelled as a third error. -/
def initializeGameFromDeck (playerCount : Nat) (deck : List Card)
    (playerTypes : Option (List PlayerType)) : Except String GameState :=
  if playerCount < 2 ∨ 4 < playerCount then
    .error "Player count must be between 2 and 4"
  else if (playerTypes.getD (List.replicate playerCount PlayerType.human)).length
      ≠ playerCount then
    .error "playerTypes array length must match playerCount"
  else
    match (dealLoop deck (playerTypes.getD (List.replicate playerCount PlayerType.human))
        0).2.getLast? with
    | none => .error "deck exhausted during setup"
    | some firstCard =>
        .ok
          { players :=
              (dealLoop deck
                (playerTypes.getD (List.replicate playerCount PlayerType.human)) 0).1
            currentPlayerIndex := 0
            drawPile :=
              (dealLoop deck
                (playerTypes.getD (List.replicate playerCount PlayerType.human)) 0).2.dropLast
            discardPile := [firstCard]
            chosenSuit := none
            pendingEffects := ⟨0, false⟩
            turnPhase := .waiting
            winner := none
            lastPlayWasSpecial := false
            direction := .CW
            responsePhase := false
            responseChainRank := none
            respondingPlayerIndex := none
            sevenDispute := none
            lastCardClaim := none
            turnNumber := 0
            jackResponse := none
            aceResponse := none }

/-- `initializeGame(playerCount, rng?, playerTypes?)` in rules.ts with the
default `Math.random` source, modelled by `rand` (see the header). -/
def initializeGame (playerCount : Nat) (rand : Nat → Nat)
    (playerTypes : Option (List PlayerType)) : Except String GameState :=
  initializeGameFromDeck playerCount (shuffleRand rand createDeck) playerTypes

/-- `initializeGame(playerCount, createSeededRng(seed), playerTypes?)` in
rules.ts: the deterministic seeded setup. -/
def initializeGameSeeded (playerCount : Nat) (seed : Nat)
    (playerTypes : Option (List PlayerType)) : Except String GameState :=
  initializeGameFromDeck playerCount (shuffleSeeded createDeck seed) playerTypes

/-- `getTopCard` in rules.ts: `discardPile[discardPile.length - 1]`.  The
source yields `undefined` (and every caller then throws) when the discard
pile is empty; the embedding makes that case `none`. -/
def getTopCard (state : GameState) : Option Card :=
  state.discardPile.getLast?

/-- `getTargetSuit` in rules.ts: `state.chosenSuit ?? getTopCard(state).suit`. -/
def getTargetSuit (state : GameState) : Option Suit :=
  match state.chosenSuit with
  | some s => some s
  | none => (getTopCard state).map Card.suit

/-- `getTargetRank` in rules.ts. -/
def getTargetRank (state : GameState) : Option Rank :=
  (getTopCard state).map Card.rank

/-- `isSpecialCard` in rules.ts. -/
def isSpecialCard (card : Card) : Bool :=
  decide (card.rank = .two) || decide (card.rank = .five) || decide (card.rank = .ten)

/-- `canCardBePlayed` in rules.ts (its `_hasForcedDraw` parameter is unused
in the source and dropped here): Ace-on-Ace is always legal, otherwise the
suit or the rank must match. -/
def canCardBePlayed (cardToPlay : Card) (targetSuit : Suit) (targetRank : Rank) : Bool :=
  if cardToPlay.rank = .A ∧ targetRank = .A then true
  else decide (cardToPlay.suit = targetSuit) || decide (cardToPlay.rank = targetRank)

/-- `allSameRank` in rules.ts. -/
def allSameRank (cards : List Card) : Bool :=
  match cards with
  | [] => true
  | c :: _ => cards.all fun x => decide (x.rank = c.rank)

/-- First-seen-order list of the distinct keys `f x` for `x` in the input:
the key iteration order of the JavaScript `Map` built by the grouping loops
in `getLegalPlays` (insertion order, first occurrence wins). -/
def keysInOrder (f : Card → α) [DecidableEq α] : List Card → List α
  | [] => []
  | x :: xs => f x :: (keysInOrder f xs).filter (· ≠ f x)

/-- The `byRank` map of `getLegalPlays` in rules.ts: group keys in
first-seen order, each group holding that rank's cards in hand order
(exactly the `Map<Rank, Card[]>` the source builds). -/
def groupByRank (hand : List Card) : List (Rank × List Card) :=
  (keysInOrder Card.rank hand).map fun r => (r, hand.filter fun c => decide (c.rank = r))

/-- The `bySuit` map of `getLegalPlays` in rules.ts. -/
def groupBySuit (hand : List Card) : List (Suit × List Card) :=
  (keysInOrder Card.suit hand).map fun s => (s, hand.filter fun c => decide (c.suit = s))

/-- `getCombinations` in rules.ts: all index-increasing selections of `k`
cards, i.e. exactly the length-`k` sublists. -/
def getCombinations (k : Nat) (l : List Card) : List (List Card) :=
  List.sublistsLen k l

/-- `getPermutations` in rules.ts: every reordering of the input, each
produced exactly once per choice sequence.  The source enumerates them by
in-place swaps; the collection it returns is the same as Lean's
`List.permutations` up to order, and no consumer of the enumeration is
order-sensitive (the results are only filtered, mapped and deduplicated by
content). -/
def getPermutations (l : List Card) : List (List Card) :=
  l.permutations

/-- The four suit choices offered for a play ending in an Ace. -/
def allSuits : List Suit := [.hearts, .diamonds, .clubs, .spades]

/-- The "push the play, expanding a trailing Ace into the four suit
choices" step that appears three times in `getLegalPlays` in rules.ts,
including the human-readable descriptions the source builds. -/
def expandAce (cards : List Card) (lastCard : Card) : List LegalPlay :=
  if lastCard.rank = .A then
    allSuits.map fun su =>
      { play := { cards := cards, chosenSuit := some su, activateEffect := none }
        description :=
          "Play " ++ String.intercalate ", " (cards.map cardToString)
            ++ " and choose " ++ suitToString su }
  else
    [{ play := { cards := cards, chosenSuit := none, activateEffect := none }
       description := "Play " ++ String.intercalate ", " (cards.map cardToString) }]

/-- The single-card loop of `getLegalPlays` in rules.ts.  The going-out
guard `!wouldGoOut(1) || hand.length === 1` is kept verbatim (in `Nat`
arithmetic); it never rejects a single card. -/
def singlePlays (hand : List Card) (targetSuit : Suit) (targetRank : Rank) : List LegalPlay :=
  hand.flatMap fun card =>
    if canCardBePlayed card targetSuit targetRank then
      if hand.length - 1 ≠ 0 ∨ hand.length = 1 then
        expandAce [card] card
      else []
    else []

/-- The size range `2 … min(cards.length, 4)` of the multi-card loops in
`getLegalPlays`. -/
def sizesFor (len : Nat) : List Nat :=
  List.range' 2 (min len 4 - 1)

/-- The same-rank multi-card loop of `getLegalPlays` in rules.ts: for each
rank group of ≥ 2 cards, every ordering of every 2–4 card selection whose
first card matches the target by suit or rank, skipping any size that would
empty the hand (the go-out constraint). -/
def rankGroupPlays (hand : List Card) (targetSuit : Suit) (targetRank : Rank) : List LegalPlay :=
  (groupByRank hand).flatMap fun g =>
    if g.2.length < 2 then []
    else
      (sizesFor g.2.length).flatMap fun size =>
        if hand.length - size = 0 then []
        else
          (getCombinations size g.2).flatMap fun combo =>
            (getPermutations combo).flatMap fun perm =>
              match perm.head?, perm.getLast? with
              | some first, some lastCard =>
                  if decide (first.suit = targetSuit) || decide (first.rank = targetRank) then
                    expandAce perm lastCard
                  else []
              | _, _ => []

/-- The same-suit multi-card loop of `getLegalPlays` in rules.ts: as the
rank loop, but over suit groups, with the group-level `firstCanStart`
pre-check, an Ace also allowed as the leading card, and pure same-rank
sequences skipped (they were already produced by the rank loop). -/
def suitGroupPlays (hand : List Card) (targetSuit : Suit) (targetRank : Rank) : List LegalPlay :=
  (groupBySuit hand).flatMap fun g =>
    if g.2.length < 2 then []
    else if ¬ (g.2.any fun c =>
        decide (c.suit = targetSuit) || decide (c.rank = targetRank)
          || decide (c.rank = Rank.A)) then []
    else
      (sizesFor g.2.length).flatMap fun size =>
        if hand.length - size = 0 then []
        else
          (getCombinations size g.2).flatMap fun combo =>
            (getPermutations combo).flatMap fun perm =>
              match perm.head?, perm.getLast? with
              | some first, some lastCard =>
                  if decide (first.suit = targetSuit) || decide (first.rank = targetRank)
                      || decide (first.rank = Rank.A) then
                    if allSameRank perm then []
                    else expandAce perm lastCard
                  else []
              | _, _ => []

/-- The deduplication key of `getLegalPlays` in rules.ts.  The source keys
on the string `cards.map(c => rank + suit).join(",") + (chosenSuit || "")`,
which encodes exactly the ordered card list and the chosen suit; the
embedding keys on that pair directly. -/
def playKey (lp : LegalPlay) : List Card × Option Suit :=
  (lp.play.cards, lp.play.chosenSuit)

/-- The `seen`-set filter at the end of `getLegalPlays` in rules.ts: keep
the first occurrence of each key. -/
def dedupPlays (seen : List (List Card × Option Suit)) : List LegalPlay → List LegalPlay
  | [] => []
  | lp :: rest =>
      if playKey lp ∈ seen then dedupPlays seen rest
      else lp :: dedupPlays (playKey lp :: seen) rest

/-- `getLegalPlays` in rules.ts.  A missing player returns `[]` as in the
source; an empty discard pile (where the source would throw reading the
target card) also returns `[]`, and every theorem below that needs the
target assumes the discard pile is non-empty. -/
def getLegalPlays (state : GameState) (playerId : Nat) : List LegalPlay :=
  match state.players.get? playerId with
  | none => []
  | some player =>
      match state.discardPile.getLast? with
      | none => []
      | some top =>
          let targetSuit := state.chosenSuit.getD top.suit
          let targetRank := top.rank
          let hand := player.hand
          if 0 < state.pendingEffects.forcedDrawCount ∨ player.lastCardPenalty then []
          else
            dedupPlays []
              (singlePlays hand targetSuit targetRank
                ++ rankGroupPlays hand targetSuit targetRank
                ++ suitGroupPlays hand targetSuit targetRank)

/-- `isPlayLegal` in rules.ts: the proposed ordered card list and suit
choice must occur in the enumeration (`activateEffect` is not compared). -/
def isPlayLegal (state : GameState) (playerId : Nat) (play : Play) : Bool :=
  (getLegalPlays state playerId).any fun lp =>
    decide (lp.play.cards.length = play.cards.length)
      && (List.zip lp.play.cards play.cards).all (fun pr => cardEquals pr.1 pr.2)
      && decide (lp.play.chosenSuit = play.chosenSuit)

/-- Remove the first card equal to `c` (the `findIndex`/`splice` pair in
`applyPlay` in rules.ts); if no card matches, the hand is unchanged, exactly
as when `findIndex` returns `-1`. -/
def removeFirst : List Card → Card → List Card
  | [], _ => []
  | x :: xs, c => if cardEquals x c then xs else x :: removeFirst xs c

/-- The removal loop of `applyPlay` in rules.ts: remove the played cards
from the hand one by one, in play order. -/
def removeCards (hand : List Card) (cards : List Card) : List Card :=
  cards.foldl removeFirst hand

/-- `players.map((p, i) => i === k ? f(p) : p)`, the per-index player update
used throughout rules.ts. -/
def modifyAt (f : PlayerState → PlayerState) : Nat → List PlayerState → List PlayerState
  | _, [] => []
  | 0, p :: ps => f p :: ps
  | n + 1, p :: ps => p :: modifyAt f n ps

/-- The forced-draw accumulation loop of `applyPlay` in rules.ts
(`newForcedDraw += 2` per "2", `+= 5` per "5"). -/
def drawCountOf (cards : List Card) : Nat :=
  cards.foldl
    (fun n c =>
      if c.rank = .two then n + 2 else if c.rank = .five then n + 5 else n) 0

/-- The skip-flag accumulation of the same loop (`newSkip = true` on each
"10"). -/
def skipOf (cards : List Card) : Bool :=
  cards.foldl (fun b c => if c.rank = .ten then true else b) false

/-- The `responseChainRank` accumulation of the same loop (the last special
rank seen wins). -/
def chainRankOf (cards : List Card) : Option Rank :=
  cards.foldl
    (fun r c =>
      if c.rank = .two then some .two
      else if c.rank = .five then some .five
      else if c.rank = .ten then some .ten
      else r) none

/-- `applyPlay` in rules.ts.  An out-of-range current player or an empty
play (both of which throw in the source) leave the state unchanged here;
the theorems below assume neither occurs. -/
def applyPlay (state : GameState) (play : Play) : GameState :=
  match state.players.get? state.currentPlayerIndex with
  | none => state
  | some player =>
      match play.cards.getLast? with
      | none => state
      | some lastCard =>
          let playerId := state.currentPlayerIndex
          let newHand := removeCards player.hand play.cards
          let newDiscardPile := state.discardPile ++ play.cards
          let shouldActivate : Bool := decide (play.activateEffect ≠ some false)
          let newForcedDraw := if shouldActivate then drawCountOf play.cards else 0
          let newSkip := if shouldActivate then skipOf play.cards else false
          let responseChainRank := if shouldActivate then chainRankOf play.cards else none
          let hasSpecialEffect : Bool := decide (0 < newForcedDraw) || newSkip
          let newPlayers :=
            modifyAt (fun p => { p with hand := newHand, lastCardPenalty := false })
              playerId state.players
          let winner : Option Nat := if newHand.length = 0 then some playerId else none
          let newChosenSuit := if lastCard.rank = .A then play.chosenSuit else none
          let nextPlayerIndex := getNextPlayerIndex state playerId
          let shouldEnterResponsePhase : Bool := hasSpecialEffect && decide (winner = none)
          if shouldEnterResponsePhase then
            { state with
                players := newPlayers
                discardPile := newDiscardPile
                chosenSuit := newChosenSuit
                pendingEffects := ⟨newForcedDraw, newSkip⟩
                turnPhase := .canEnd
                winner := winner
                lastPlayWasSpecial := hasSpecialEffect
                responsePhase := true
                responseChainRank := responseChainRank
                respondingPlayerIndex := some nextPlayerIndex }
          else
            { state with
                players := newPlayers
                discardPile := newDiscardPile
                chosenSuit := newChosenSuit
                pendingEffects := ⟨newForcedDraw, newSkip⟩
                turnPhase := if winner ≠ none then .gameOver else .canEnd
                winner := winner
                lastPlayWasSpecial := hasSpecialEffect
                responsePhase := false
                responseChainRank := none
                respondingPlayerIndex := none }

/-- The draw loop of `applyDraw` in rules.ts.  Arguments: remaining count,
draw pile, discard pile, cards drawn so far; result in the same order minus
the count.  When the draw pile is empty and the discard pile holds at most
the top card the loop `break`s; when the draw pile is empty otherwise, all
of the discard pile except its top card is shuffled (with `Math.random`,
modelled by `rand`) into a fresh draw pile; then one card is popped.  The
two `none` fallbacks mirror the source's `if (card)` guard and are
unreachable. -/
def drawLoop (rand : Nat → Nat) : Nat → List Card → List Card → List Card →
    List Card × List Card × List Card
  | 0, drawPile, discardPile, drawn => (drawPile, discardPile, drawn)
  | n + 1, drawPile, discardPile, drawn =>
      if drawPile.isEmpty then
        if discardPile.length ≤ 1 then (drawPile, discardPile, drawn)
        else
          let top := discardPile.getLastD ⟨.A, .hearts⟩
          let fresh := shuffleRand rand discardPile.dropLast
          match fresh.getLast? with
          | some card => drawLoop rand n fresh.dropLast [top] (drawn ++ [card])
          | none => drawLoop rand n fresh [top] drawn
      else
        match drawPile.getLast? with
        | some card => drawLoop rand n drawPile.dropLast discardPile (drawn ++ [card])
        | none => drawLoop rand n drawPile discardPile drawn

/-- `applyDraw` in rules.ts: draw `count` cards (recycling as needed), give
them to the current player, clear that player's penalty flag, zero the
forced-draw count and move to `can-end`. -/
def applyDraw (rand : Nat → Nat) (state : GameState) (count : Nat) : GameState :=
  let playerId := state.currentPlayerIndex
  let r := drawLoop rand count state.drawPile state.discardPile []
  let newPlayers :=
    modifyAt (fun p => { p with hand := p.hand ++ r.2.2, lastCardPenalty := false })
      playerId state.players
  { state with
      players := newPlayers
      drawPile := r.1
      discardPile := r.2.1
      pendingEffects := { state.pendingEffects with forcedDrawCount := 0 }
      turnPhase := .canEnd }

/-- `applyVoluntaryDraw` in rules.ts. -/
def applyVoluntaryDraw (rand : Nat → Nat) (state : GameState) : GameState :=
  applyDraw rand state 1

/-- `applyForcedDraw` in rules.ts: the penalty takes priority (exactly one
card), else the pending forced-draw count.  A missing current player (which
throws in the source) leaves the state unchanged. -/
def applyForcedDraw (rand : Nat → Nat) (state : GameState) : GameState :=
  match state.players.get? state.currentPlayerIndex with
  | none => state
  | some player =>
      let count := if player.lastCardPenalty then 1 else state.pendingEffects.forcedDrawCount
      applyDraw rand state count

/-- `nextTurn` in rules.ts: identity once a winner is set; otherwise advance
the seat (an extra step consumes a pending skip), bump the turn counter,
expire a stale last-card claim, flag the outgoing player's missed
declaration, reset their declaration flag, pick the next phase and clear
every response/dispute/Jack/Ace sub-state. -/
def nextTurn (state : GameState) : GameState :=
  if state.winner ≠ none then state
  else
    match state.players.get? state.currentPlayerIndex with
    | none => state
    | some currentPlayer =>
        let nextIndex0 := getNextPlayerIndex state state.currentPlayerIndex
        let nextIndex :=
          if state.pendingEffects.skipNextPlayer then getNextPlayerIndex state nextIndex0
          else nextIndex0
        let newTurnNumber := state.turnNumber + 1
        let newLastCardClaim :=
          match state.lastCardClaim with
          | some claim =>
              if claim.turnNumberCreated + 1 < newTurnNumber then none else some claim
          | none => none
        let needsLastCardPenalty : Bool :=
          decide (currentPlayer.hand.length = 1)
            && !currentPlayer.declaredLastCard && !state.lastPlayWasSpecial
        let newPlayers :=
          modifyAt
            (fun p =>
              if needsLastCardPenalty then { p with lastCardPenalty := true }
              else { p with declaredLastCard := false })
            state.currentPlayerIndex state.players
        match newPlayers.get? nextIndex with
        | none => state
        | some nextPlayer =>
            { state with
                players := newPlayers
                currentPlayerIndex := nextIndex
                pendingEffects := ⟨state.pendingEffects.forcedDrawCount, false⟩
                turnPhase :=
                  if 0 < state.pendingEffects.forcedDrawCount ∨ nextPlayer.lastCardPenalty then
                    .mustDraw
                  else .waiting
                lastPlayWasSpecial := false
                responsePhase := false
                responseChainRank := none
                respondingPlayerIndex := none
                sevenDispute := none
                lastCardClaim := newLastCardClaim
                turnNumber := newTurnNumber
                jackResponse := none
                aceResponse := none }

/-- `confirmHandoff` in rules.ts. -/
def confirmHandoff (state : GameState) : GameState :=
  match state.players.get? state.currentPlayerIndex with
  | none => state
  | some player =>
      { state with
          turnPhase :=
            if 0 < state.pendingEffects.forcedDrawCount ∨ player.lastCardPenalty then
              .mustDraw
            else .playing }

/-- `declareLastCard` in rules.ts: set the declaration flag and open a claim
stamped with the current turn number. -/
def declareLastCard (state : GameState) : GameState :=
  { state with
      players :=
        modifyAt (fun p => { p with declaredLastCard := true })
          state.currentPlayerIndex state.players
      lastCardClaim := some ⟨state.currentPlayerIndex, state.turnNumber⟩ }

/-- `getDrawableCount` in rules.ts. -/
def getDrawableCount (state : GameState) : Nat :=
  state.drawPile.length + (state.discardPile.length - 1)

/-- `isInResponsePhase` in rules.ts. -/
def isInResponsePhase (state : GameState) : Bool :=
  state.responsePhase && decide (state.respondingPlayerIndex ≠ none)

/-- `getLegalDeflections` in rules.ts: the responding player's cards whose
rank equals the chain rank. -/
def getLegalDeflections (state : GameState) : List Card :=
  if isInResponsePhase state then
    match state.respondingPlayerIndex with
    | none => []
    | some ri =>
        match state.players.get? ri, state.responseChainRank with
        | some responder, some chainRank =>
            responder.hand.filter fun c => decide (c.rank = chainRank)
        | _, _ => []
  else []

/-- `canCancel` in rules.ts. -/
def canCancel (state : GameState) : Bool :=
  decide (getLegalDeflections state ≠ [])

/-- `getLegalCancels` in rules.ts: identical to `getLegalDeflections`. -/
def getLegalCancels (state : GameState) : List Card :=
  getLegalDeflections state

/-- `applyResolve` in rules.ts: the responder accepts, becomes the current
player, the phase reflects any owed draw, and the pending skip is consumed. -/
def applyResolve (state : GameState) : GameState :=
  if isInResponsePhase state then
    match state.respondingPlayerIndex with
    | none => state
    | some respondingIndex =>
        { state with
            currentPlayerIndex := respondingIndex
            turnPhase :=
              if 0 < state.pendingEffects.forcedDrawCount then .mustDraw else .waiting
            responsePhase := false
            responseChainRank := none
            respondingPlayerIndex := none
            pendingEffects := { state.pendingEffects with skipNextPlayer := false } }
  else state

/-- `applyDeflect` in rules.ts: a same-rank card extends the chain (adding
its draw value), the responder role passes onward, and emptying the hand
wins immediately. -/
def applyDeflect (state : GameState) (card : Card) : GameState :=
  if isInResponsePhase state then
    match state.respondingPlayerIndex with
    | none => state
    | some respondingIndex =>
        match state.players.get? respondingIndex with
        | none => state
        | some responder =>
            match state.responseChainRank with
            | none => state
            | some chainRank =>
                if card.rank ≠ chainRank then state
                else
                  let newHand := responder.hand.filter fun c => !(cardEquals c card)
                  let newDiscardPile := state.discardPile ++ [card]
                  let newForcedDraw :=
                    if card.rank = .two then state.pendingEffects.forcedDrawCount + 2
                    else if card.rank = .five then state.pendingEffects.forcedDrawCount + 5
                    else state.pendingEffects.forcedDrawCount
                  let newPlayers :=
                    modifyAt (fun p => { p with hand := newHand }) respondingIndex
                      state.players
                  let winner : Option Nat :=
                    if newHand.length = 0 then some respondingIndex else none
                  if winner ≠ none then
                    { state with
                        players := newPlayers
                        discardPile := newDiscardPile
                        pendingEffects := ⟨newForcedDraw, decide (chainRank = .ten)⟩
                        winner := winner
                        turnPhase := .gameOver
                        responsePhase := false
                        responseChainRank := none
                        respondingPlayerIndex := none }
                  else
                    { state with
                        players := newPlayers
                        discardPile := newDiscardPile
                        pendingEffects := ⟨newForcedDraw, decide (chainRank = .ten)⟩
                        responsePhase := true
                        responseChainRank := some chainRank
                        respondingPlayerIndex :=
                          some (getNextPlayerIndex state respondingIndex) }
  else state

/-- `applyCancel` in rules.ts delegates to `applyDeflect`. -/
def applyCancel (state : GameState) (card : Card) : GameState :=
  applyDeflect state card

/-- `isInSevenDispute` in rules.ts. -/
def isInSevenDispute (state : GameState) : Bool :=
  decide (state.sevenDispute ≠ none)

/-- `getEffectiveSuitForSevenCancel` in rules.ts:
`state.chosenSuit ?? getTopCard(state).suit`; `none` marks the empty-discard
case where the source would throw. -/
def getEffectiveSuitForSevenCancel (state : GameState) : Option Suit :=
  match state.chosenSuit with
  | some s => some s
  | none => (getTopCard state).map Card.suit

/-- `canPlaySevenCancelEffect` in rules.ts (Type A): in the response phase,
as the responder, with a pending effect, holding a seven of the effective
suit. -/
def canPlaySevenCancelEffect (state : GameState) (playerId : Nat) : Bool :=
  isInResponsePhase state
    && decide (state.respondingPlayerIndex = some playerId)
    && !(decide (state.pendingEffects.forcedDrawCount = 0)
          && !state.pendingEffects.skipNextPlayer)
    && (match getEffectiveSuitForSevenCancel state, state.players.get? playerId with
        | some effectiveSuit, some player =>
            player.hand.any fun c =>
              decide (c.rank = Rank.seven) && decide (c.suit = effectiveSuit)
        | _, _ => false)

/-- `canPlaySevenCancelLastCard` in rules.ts (Type B): an active claim, on
the turn immediately after it was created, by the current player who is not
the claimer, holding a seven of the effective suit. -/
def canPlaySevenCancelLastCard (state : GameState) (playerId : Nat) : Bool :=
  match state.lastCardClaim with
  | none => false
  | some claim =>
      decide (state.turnNumber = claim.turnNumberCreated + 1)
        && decide (state.currentPlayerIndex = playerId)
        && decide (claim.playerId ≠ playerId)
        && (match getEffectiveSuitForSevenCancel state, state.players.get? playerId with
            | some effectiveSuit, some player =>
                player.hand.any fun c =>
                  decide (c.rank = Rank.seven) && decide (c.suit = effectiveSuit)
            | _, _ => false)

/-- `getLegalSevenCancelsEffect` in rules.ts. -/
def getLegalSevenCancelsEffect (state : GameState) (playerId : Nat) : List Card :=
  if canPlaySevenCancelEffect state playerId then
    match getEffectiveSuitForSevenCancel state, state.players.get? playerId with
    | some effectiveSuit, some player =>
        player.hand.filter fun c =>
          decide (c.rank = Rank.seven) && decide (c.suit = effectiveSuit)
    | _, _ => []
  else []

/-- `getLegalSevenCancelsLastCard` in rules.ts. -/
def getLegalSevenCancelsLastCard (state : GameState) (playerId : Nat) : List Card :=
  if canPlaySevenCancelLastCard state playerId then
    match getEffectiveSuitForSevenCancel state, state.players.get? playerId with
    | some effectiveSuit, some player =>
        player.hand.filter fun c =>
          decide (c.rank = Rank.seven) && decide (c.suit = effectiveSuit)
    | _, _ => []
  else []

/-- `applySevenCancelEffect` in rules.ts (Type A): the responder discards a
seven of the effective suit, the suit override is cleared, and a Seven
Dispute opens (`cancelled = true`) with the original attacker as responder —
or the responder wins at once if the seven was their last card. -/
def applySevenCancelEffect (state : GameState) (card : Card) : GameState :=
  if isInResponsePhase state then
    match state.respondingPlayerIndex with
    | none => state
    | some respondingIndex =>
        match state.players.get? respondingIndex with
        | none => state
        | some responder =>
            match getEffectiveSuitForSevenCancel state with
            | none => state
            | some effectiveSuit =>
                if card.rank ≠ Rank.seven ∨ card.suit ≠ effectiveSuit then state
                else
                  let newHand := responder.hand.filter fun c => !(cardEquals c card)
                  let newDiscardPile := state.discardPile ++ [card]
                  let newPlayers :=
                    modifyAt (fun p => { p with hand := newHand }) respondingIndex
                      state.players
                  let winner : Option Nat :=
                    if newHand.length = 0 then some respondingIndex else none
                  if winner ≠ none then
                    { state with
                        players := newPlayers
                        discardPile := newDiscardPile
                        winner := winner
                        turnPhase := .gameOver
                        responsePhase := false
                        responseChainRank := none
                        respondingPlayerIndex := none
                        sevenDispute := none
                        chosenSuit := none }
                  else
                    let attackerIndex := getNextPlayerIndex state respondingIndex
                    { state with
                        players := newPlayers
                        discardPile := newDiscardPile
                        chosenSuit := none
                        turnPhase := .playing
                        responsePhase := false
                        responseChainRank := none
                        respondingPlayerIndex := none
                        sevenDispute := some
                          { kind := .EFFECT
                            effectSnapshot := some
                              ⟨state.pendingEffects.forcedDrawCount,
                               state.pendingEffects.skipNextPlayer, attackerIndex⟩
                            lastCardClaimPlayerId := none
                            cancelled := true
                            responderPlayerId := attackerIndex } }
  else state

/-- `applySevenCancelLastCard` in rules.ts (Type B): the current player
discards a seven of the effective suit to challenge the standing claim; the
suit override is cleared and a Seven Dispute opens with the claimer as
responder (the claim itself is kept until the dispute resolves). -/
def applySevenCancelLastCard (state : GameState) (card : Card) : GameState :=
  match state.lastCardClaim with
  | none => state
  | some claim =>
      match state.players.get? state.currentPlayerIndex with
      | none => state
      | some player =>
          match getEffectiveSuitForSevenCancel state with
          | none => state
          | some effectiveSuit =>
              if card.rank ≠ Rank.seven ∨ card.suit ≠ effectiveSuit then state
              else
                let playerId := state.currentPlayerIndex
                let newHand := player.hand.filter fun c => !(cardEquals c card)
                let newDiscardPile := state.discardPile ++ [card]
                let newPlayers :=
                  modifyAt (fun p => { p with hand := newHand }) playerId state.players
                let winner : Option Nat :=
                  if newHand.length = 0 then some playerId else none
                if winner ≠ none then
                  { state with
                      players := newPlayers
                      discardPile := newDiscardPile
                      winner := winner
                      turnPhase := .gameOver
                      sevenDispute := none
                      lastCardClaim := none
                      chosenSuit := none }
                else
                  { state with
                      players := newPlayers
                      discardPile := newDiscardPile
                      chosenSuit := none
                      turnPhase := .playing
                      sevenDispute := some
                        { kind := .LAST_CARD
                          effectSnapshot := none
                          lastCardClaimPlayerId := some claim.playerId
                          cancelled := true
                          responderPlayerId := claim.playerId } }

/-- `getLegalSevenDisputePlays` in rules.ts: during a dispute, any seven in
the current responder's hand (suit-unconstrained). -/
def getLegalSevenDisputePlays (state : GameState) (playerId : Nat) : List Card :=
  match state.sevenDispute with
  | none => []
  | some dispute =>
      if dispute.responderPlayerId ≠ playerId then []
      else
        match state.players.get? playerId with
        | none => []
        | some player => player.hand.filter fun c => decide (c.rank = Rank.seven)

/-- `canPlaySevenDispute` in rules.ts. -/
def canPlaySevenDispute (state : GameState) (playerId : Nat) : Bool :=
  decide (getLegalSevenDisputePlays state playerId ≠ [])

/-- `applySevenDisputePlay` in rules.ts: any seven from the current
responder toggles `cancelled` and passes the responder role onward;
emptying the hand wins immediately. -/
def applySevenDisputePlay (state : GameState) (card : Card) : GameState :=
  match state.sevenDispute with
  | none => state
  | some dispute =>
      match state.players.get? dispute.responderPlayerId with
      | none => state
      | some responder =>
          if card.rank ≠ Rank.seven then state
          else
            let responderId := dispute.responderPlayerId
            let newHand := responder.hand.filter fun c => !(cardEquals c card)
            let newDiscardPile := state.discardPile ++ [card]
            let newPlayers :=
              modifyAt (fun p => { p with hand := newHand }) responderId state.players
            let winner : Option Nat :=
              if newHand.length = 0 then some responderId else none
            if winner ≠ none then
              { state with
                  players := newPlayers
                  discardPile := newDiscardPile
                  winner := winner
                  turnPhase := .gameOver
                  sevenDispute := none
                  lastCardClaim := none
                  chosenSuit := none }
            else
              { state with
                  players := newPlayers
                  discardPile := newDiscardPile
                  chosenSuit := none
                  sevenDispute := some
                    { dispute with
                        cancelled := !dispute.cancelled
                        responderPlayerId :=
                          getNextPlayerIndex state responderId } }

/-- `applySevenDisputeAccept` in rules.ts.  For an effect dispute,
`cancelled` clears the pending effects, otherwise the snapshotted effect is
reinstated on the responder (note the phase check reads the CURRENT pending
count, as the source does).  For a claim dispute, `cancelled` strips the
claimer's declaration (a missing claimer id — the source's non-matching
`map` — leaves the players untouched), otherwise the claim stands. -/
def applySevenDisputeAccept (state : GameState) : GameState :=
  match state.sevenDispute with
  | none => state
  | some dispute =>
      match dispute.kind with
      | .EFFECT =>
          if dispute.cancelled then
            { state with
                pendingEffects := ⟨0, false⟩
                turnPhase := .canEnd
                sevenDispute := none }
          else
            { state with
                currentPlayerIndex := dispute.responderPlayerId
                pendingEffects :=
                  match dispute.effectSnapshot with
                  | some snap => ⟨snap.drawAmount, snap.skip⟩
                  | none => state.pendingEffects
                turnPhase :=
                  if 0 < state.pendingEffects.forcedDrawCount then .mustDraw else .waiting
                sevenDispute := none }
      | .LAST_CARD =>
          if dispute.cancelled then
            { state with
                players :=
                  match dispute.lastCardClaimPlayerId with
                  | some claimerId =>
                      modifyAt (fun p => { p with declaredLastCard := false }) claimerId
                        state.players
                  | none => state.players
                sevenDispute := none
                lastCardClaim := none
                turnPhase := .playing }
          else
            { state with
                sevenDispute := none
                turnPhase := .playing }

/-! ### Permutation facts about the shuffles -/

theorem cardEquals_eq_decide (a b : Card) : cardEquals a b = decide (a = b) := by
  by_cases h : a = b
  · simp [h, cardEquals]
  · have h1 : cardEquals a b ≠ true := fun hc => h ((cardEquals_iff a b).mp hc)
    simp [h, Bool.not_eq_true] at h1 ⊢
    exact h1

theorem cons_set_perm (xs : List Card) (k : Nat) (a b : Card)
    (h : xs.get? k = some b) : (b :: xs.set k a).Perm (a :: xs) := by
  induction xs generalizing k with
  | nil => exact absurd h (by simp)
  | cons x xs ih =>
      cases k with
      | zero =>
          obtain rfl : x = b := by simpa using h
          show (x :: a :: xs).Perm (a :: x :: xs)
          exact List.Perm.swap a x xs

      | succ k =>
          have h' : xs.get? k = some b := by simpa using h
          show (b :: x :: xs.set k a).Perm (a :: x :: xs)
          exact ((List.Perm.swap x b (xs.set k a)).trans
            ((ih k h').cons x)).trans (List.Perm.swap a x xs)

theorem set_set_perm (l : List Card) (i j : Nat) (a b : Card)
    (hi : l.get? i = some a) (hj : l.get? j = some b) :
    ((l.set i b).set j a).Perm l := by
  induction l generalizing i j with
  | nil => exact absurd hi (by simp)
  | cons x xs ih =>
      cases i with
      | zero =>
          obtain rfl : x = a := by simpa using hi
          cases j with
          | zero =>
              obtain rfl : x = b := by simpa using hj
              show (x :: xs).Perm (x :: xs)
              exact List.Perm.refl _
          | succ k =>
              have hj' : xs.get? k = some b := by simpa using hj
              show (b :: xs.set k x).Perm (x :: xs)
              exact cons_set_perm xs k x b hj'
      | succ m =>
          have hi' : xs.get? m = some a := by simpa using hi
          cases j with
          | zero =>
              obtain rfl : x = b := by simpa using hj
              show (a :: xs.set m x).Perm (x :: xs)
              exact cons_set_perm xs m x a hi'
          | succ k =>
              have hj' : xs.get? k = some b := by simpa using hj
              show (x :: (xs.set m b).set k a).Perm (x :: xs)
              exact (ih m k hi' hj').cons x

theorem listSwap_perm (l : List Card) (i j : Nat) : (listSwap l i j).Perm l := by
  unfold listSwap
  cases hi : l.get? i with
  | none => exact List.Perm.refl l
  | some a =>
      cases hj : l.get? j with
      | none => exact List.Perm.refl l
      | some b => exact set_set_perm l i j a b hi hj

theorem fyRand_perm (rand : Nat → Nat) : ∀ (n : Nat) (l : List Card),
    (fyRand rand l n).Perm l := by
  intro n
  induction n with
  | zero => intro l; exact List.Perm.refl l
  | succ k ih =>
      intro l
      simp only [fyRand]
      exact (ih _).trans (listSwap_perm l (k + 1) (rand (k + 1) % (k + 2)))

theorem shuffleRand_perm (rand : Nat → Nat) (l : List Card) :
    (shuffleRand rand l).Perm l :=
  fyRand_perm rand (l.length - 1) l

theorem shuffleRand_length (rand : Nat → Nat) (l : List Card) :
    (shuffleRand rand l).length = l.length :=
  (shuffleRand_perm rand l).length_eq

theorem fySeeded_perm : ∀ (n : Nat) (l : List Card) (s : Nat),
    ((fySeeded l s n).1).Perm l := by
  intro n
  induction n with
  | zero => intro l s; exact List.Perm.refl l
  | succ k ih =>
      intro l s
      simp only [fySeeded]
      exact (ih _ _).trans (listSwap_perm l (k + 1) _)

theorem shuffleSeeded_perm (l : List Card) (seed : Nat) :
    (shuffleSeeded l seed).Perm l :=
  fySeeded_perm (l.length - 1) l seed

/-! ### Removal lemmas -/

theorem removeFirst_eq_erase (l : List Card) (c : Card) :
    removeFirst l c = l.erase c := by
  induction l with
  | nil => rfl
  | cons x xs ih =>
      rw [List.erase_cons]
      simp only [removeFirst, cardEquals_eq_decide]
      by_cases h : x = c
      · simp [h]
      · simp [h, ih]

theorem removeCards_multiset : ∀ (cards hand : List Card),
    (↑cards : Multiset Card) ≤ ↑hand →
    (↑(removeCards hand cards) : Multiset Card) + ↑cards = (↑hand : Multiset Card) := by
  intro cards
  induction cards with
  | nil => intro hand _; simp [removeCards]
  | cons c cs ih =>
      intro hand h
      have hc : c ∈ hand := by
        have : c ∈ (↑hand : Multiset Card) :=
          Multiset.mem_of_le h (by simp)
        simpa using this
      have hperm : hand.Perm (c :: hand.erase c) := List.perm_cons_erase hc
      have hcoe : (↑hand : Multiset Card) = c ::ₘ ↑(hand.erase c) := by
        have := Multiset.coe_eq_coe.mpr hperm
        simpa using this
      have hcs : (↑cs : Multiset Card) ≤ ↑(hand.erase c) := by
        have h' : c ::ₘ (↑cs : Multiset Card) ≤ c ::ₘ ↑(hand.erase c) := by
          rw [← hcoe]
          simpa using h
        exact (Multiset.cons_le_cons_iff c).mp h'
      have hrc : removeCards hand (c :: cs) = removeCards (hand.erase c) cs := by
        simp [removeCards, removeFirst_eq_erase]
      rw [hrc, hcoe]
      have := ih (hand.erase c) hcs
      calc (↑(removeCards (hand.erase c) cs) : Multiset Card) + ↑(c :: cs)
          = c ::ₘ ((↑(removeCards (hand.erase c) cs) : Multiset Card) + ↑cs) := by
            simp [Multiset.add_cons]
        _ = c ::ₘ ↑(hand.erase c) := by rw [this]

theorem filter_remove_cons (hand : List Card) (c : Card) (hnd : hand.Nodup)
    (hc : c ∈ hand) :
    (↑hand : Multiset Card) =
      c ::ₘ ↑(hand.filter fun x => !(cardEquals x c)) := by
  have hfe : (hand.filter fun x => !(cardEquals x c)) = hand.erase c := by
    rw [hnd.erase_eq_filter c]
    apply List.filter_congr
    intro x _
    simp only [cardEquals_eq_decide, bne]
    rfl
  rw [hfe]
  have := Multiset.coe_eq_coe.mpr (List.perm_cons_erase hc)
  simpa using this

/-! ### Player-list update lemmas -/

theorem modifyAt_length (f : PlayerState → PlayerState) :
    ∀ (i : Nat) (ps : List PlayerState), (modifyAt f i ps).length = ps.length := by
  intro i
  induction i with
  | zero => intro ps; cases ps <;> simp [modifyAt]
  | succ n ih => intro ps; cases ps <;> simp [modifyAt, ih]

theorem modifyAt_get?_self (f : PlayerState → PlayerState) :
    ∀ (i : Nat) (ps : List PlayerState),
      (modifyAt f i ps).get? i = (ps.get? i).map f := by
  intro i
  induction i with
  | zero => intro ps; cases ps <;> simp [modifyAt]
  | succ n ih =>
      intro ps
      cases ps with
      | nil => simp [modifyAt]
      | cons p ps =>
          show (p :: modifyAt f n ps).get? (n + 1) = ((p :: ps).get? (n + 1)).map f
          rw [List.get?_cons_succ, List.get?_cons_succ]
          exact ih ps

theorem modifyAt_get?_ne (f : PlayerState → PlayerState) :
    ∀ (i j : Nat) (ps : List PlayerState), i ≠ j →
      (modifyAt f i ps).get? j = ps.get? j := by
  intro i
  induction i with
  | zero =>
      intro j ps h
      cases ps with
      | nil => rfl
      | cons p ps =>
          cases j with
          | zero => exact absurd rfl h
          | succ k => simp [modifyAt]
  | succ n ih =>
      intro j ps h
      cases ps with
      | nil => rfl
      | cons p ps =>
          cases j with
          | zero => simp [modifyAt]
          | succ k =>
              show (p :: modifyAt f n ps).get? (k + 1) = ((p :: ps).get? (k + 1))
              rw [List.get?_cons_succ, List.get?_cons_succ]
              exact ih k ps (fun he => h (by rw [he]))

theorem mcoe_append (l₁ l₂ : List Card) :
    (↑(l₁ ++ l₂) : Multiset Card) = ↑l₁ + ↑l₂ := by simp

/-- All cards held in the players' hands, in seat order. -/
def handsOf (players : List PlayerState) : List Card :=
  (players.map PlayerState.hand).flatten

theorem handsOf_cons (p : PlayerState) (ps : List PlayerState) :
    handsOf (p :: ps) = p.hand ++ handsOf ps := rfl

/-- The full card content of a state: draw pile, discard pile and every
hand, as a multiset.  The conservation invariant says this is one complete
deck. -/
def allCards (s : GameState) : Multiset Card :=
  ↑s.drawPile + ↑s.discardPile + ↑(handsOf s.players)

theorem handsOf_modifyAt (f : PlayerState → PlayerState) :
    ∀ (i : Nat) (ps : List PlayerState) (p : PlayerState), ps.get? i = some p →
      (↑(handsOf (modifyAt f i ps)) : Multiset Card) + ↑p.hand =
        (↑(handsOf ps) : Multiset Card) + ↑(f p).hand := by
  intro i
  induction i with
  | zero =>
      intro ps p h
      cases ps with
      | nil => exact absurd h (by simp)
      | cons q qs =>
          obtain rfl : q = p := by simpa using h
          show (↑(handsOf (f q :: qs)) : Multiset Card) + ↑q.hand =
            (↑(handsOf (q :: qs)) : Multiset Card) + ↑(f q).hand
          rw [handsOf_cons, handsOf_cons, mcoe_append, mcoe_append]
          abel
  | succ n ih =>
      intro ps p h
      cases ps with
      | nil => exact absurd h (by simp)
      | cons q qs =>
          have h' : qs.get? n = some p := by simpa using h
          show (↑(handsOf (q :: modifyAt f n qs)) : Multiset Card) + ↑p.hand =
            (↑(handsOf (q :: qs)) : Multiset Card) + ↑(f p).hand
          rw [handsOf_cons, handsOf_cons, mcoe_append, mcoe_append]
          have := ih qs p h'
          calc (↑q.hand + (↑(handsOf (modifyAt f n qs)) : Multiset Card)) + ↑p.hand
              = ↑q.hand + ((↑(handsOf (modifyAt f n qs)) : Multiset Card) + ↑p.hand) := by
                rw [add_assoc]
            _ = ↑q.hand + ((↑(handsOf qs) : Multiset Card) + ↑(f p).hand) := by rw [this]
            _ = (↑q.hand + (↑(handsOf qs) : Multiset Card)) + ↑(f p).hand := by
                rw [add_assoc]

theorem handsOf_modifyAt_preserve (f : PlayerState → PlayerState)
    (hf : ∀ p, (f p).hand = p.hand) :
    ∀ (i : Nat) (ps : List PlayerState), handsOf (modifyAt f i ps) = handsOf ps := by
  intro i
  induction i with
  | zero =>
      intro ps
      cases ps with
      | nil => rfl
      | cons q qs => simp [modifyAt, handsOf, hf]
  | succ n ih =>
      intro ps
      cases ps with
      | nil => rfl
      | cons q qs =>
          show handsOf (q :: modifyAt f n qs) = handsOf (q :: qs)
          rw [handsOf_cons, handsOf_cons, ih qs]

theorem hand_le_handsOf : ∀ (ps : List PlayerState) (i : Nat) (p : PlayerState),
    ps.get? i = some p → (↑p.hand : Multiset Card) ≤ ↑(handsOf ps) := by
  intro ps
  induction ps with
  | nil => intro i p h; exact absurd h (by simp)
  | cons q qs ih =>
      intro i p h
      cases i with
      | zero =>
          obtain rfl : q = p := by simpa using h
          rw [handsOf_cons, mcoe_append]
          exact Multiset.le_add_right _ _
      | succ n =>
          have h' : qs.get? n = some p := by simpa using h
          rw [handsOf_cons, mcoe_append]
          exact (ih n p h').trans (Multiset.le_add_left _ _)

/-! ### Setup conservation -/

theorem dealLoop_split : ∀ (types : List PlayerType) (deck : List Card) (i : Nat),
    handsOf (dealLoop deck types i).1 ++ (dealLoop deck types i).2 = deck := by
  intro types
  induction types with
  | nil => intro deck i; simp [dealLoop, handsOf]
  | cons t ts ih =>
      intro deck i
      show handsOf
          (⟨i, deck.take INITIAL_HAND_SIZE, t, false, false⟩ ::
            (dealLoop (deck.drop INITIAL_HAND_SIZE) ts (i + 1)).1) ++
          (dealLoop (deck.drop INITIAL_HAND_SIZE) ts (i + 1)).2 = deck
      rw [handsOf_cons, List.append_assoc]
      rw [ih (deck.drop INITIAL_HAND_SIZE) (i + 1)]
      exact List.take_append_drop _ deck

theorem initializeGameFromDeck_allCards (n : Nat) (deck : List Card)
    (types : Option (List PlayerType)) (s : GameState)
    (h : initializeGameFromDeck n deck types = .ok s) :
    allCards s = ↑deck := by
  unfold initializeGameFromDeck at h
  split at h
  · exact absurd h (by simp)
  · split at h
    · exact absurd h (by simp)
    · split at h
      next => exact absurd h (by simp)
      next firstCard hlast =>
          injection h with hs
          subst hs
          simp only [allCards]
          have hsplit := dealLoop_split (types.getD (List.replicate n PlayerType.human)) deck 0
          set dealt := dealLoop deck (types.getD (List.replicate n PlayerType.human)) 0 with hd
          have hne : dealt.2 ≠ [] := by
            intro he
            rw [he] at hlast
            simp at hlast
          have hfc : dealt.2.dropLast ++ [firstCard] = dealt.2 := by
            have h1 := List.getLast?_eq_getLast dealt.2 hne
            rw [hlast] at h1
            have h2 : firstCard = dealt.2.getLast hne := Option.some.inj h1
            rw [h2]
            exact List.dropLast_append_getLast hne
          calc (↑dealt.2.dropLast : Multiset Card) + ↑[firstCard] + ↑(handsOf dealt.1)
              = ↑(dealt.2.dropLast ++ [firstCard]) + ↑(handsOf dealt.1) := by
                rw [mcoe_append]
            _ = ↑dealt.2 + ↑(handsOf dealt.1) := by rw [hfc]
            _ = ↑(handsOf dealt.1 ++ dealt.2) := by rw [mcoe_append, add_comm]
            _ = ↑deck := by rw [hsplit]

theorem initializeGame_allCards (n : Nat) (rand : Nat → Nat)
    (types : Option (List PlayerType)) (s : GameState)
    (h : initializeGame n rand types = .ok s) :
    allCards s = ↑createDeck := by
  have := initializeGameFromDeck_allCards n (shuffleRand rand createDeck) types s h
  rw [this]
  exact Multiset.coe_eq_coe.mpr (shuffleRand_perm rand createDeck)

/-! ### Draw-loop lemmas -/

theorem getLast?_split (l : List Card) (c : Card) (h : l.getLast? = some c) :
    l.dropLast ++ [c] = l := by
  have hne : l ≠ [] := by
    intro he
    rw [he] at h
    simp at h
  have h1 := List.getLast?_eq_getLast l hne
  rw [h] at h1
  have h2 : c = l.getLast hne := Option.some.inj h1
  rw [h2]
  exact List.dropLast_append_getLast hne

theorem getLast?_ne_nil (l : List Card) (h : l ≠ []) : ∃ c, l.getLast? = some c := by
  cases hc : l.getLast? with
  | none => exact absurd (List.getLast?_eq_none_iff.mp hc) h
  | some c => exact ⟨c, rfl⟩

theorem drawLoop_conservation (rand : Nat → Nat) : ∀ (n : Nat) (dp dc acc : List Card),
    (↑(drawLoop rand n dp dc acc).1 : Multiset Card) + ↑(drawLoop rand n dp dc acc).2.1
        + ↑(drawLoop rand n dp dc acc).2.2 =
      (↑dp : Multiset Card) + ↑dc + ↑acc := by
  intro n
  induction n with
  | zero => intro dp dc acc; rfl
  | succ n ih =>
      intro dp dc acc
      by_cases hdp : dp.isEmpty
      · by_cases hdc : dc.length ≤ 1
        · simp only [drawLoop, hdp, if_true, hdc, if_true]
        · have hdcne : dc ≠ [] := by
            intro he
            rw [he] at hdc
            simp at hdc
          obtain ⟨t, ht⟩ := getLast?_ne_nil dc hdcne
          have htop : dc.getLastD ⟨.A, .hearts⟩ = t := by
            rw [List.getLastD_eq_getLast?, ht]
            rfl
          have hdpe : dp = [] := List.isEmpty_iff.mp hdp
          have hfresh : (↑(shuffleRand rand dc.dropLast) : Multiset Card) = ↑dc.dropLast :=
            Multiset.coe_eq_coe.mpr (shuffleRand_perm rand dc.dropLast)
          have hdcsplit : (↑dc.dropLast : Multiset Card) + ↑[t] = ↑dc := by
            rw [← mcoe_append, getLast?_split dc t ht]
          simp only [drawLoop, hdp, if_true, hdc, if_false, htop]
          cases hfl : (shuffleRand rand dc.dropLast).getLast? with
          | some card =>
              rw [ih]
              have hfsplit :
                  (↑(shuffleRand rand dc.dropLast).dropLast : Multiset Card) + ↑[card] =
                    ↑(shuffleRand rand dc.dropLast) := by
                rw [← mcoe_append, getLast?_split _ card hfl]
              rw [hdpe]
              calc (↑(shuffleRand rand dc.dropLast).dropLast : Multiset Card) + ↑[t]
                    + ↑(acc ++ [card])
                  = ((↑(shuffleRand rand dc.dropLast).dropLast : Multiset Card) + ↑[card])
                      + ↑[t] + ↑acc := by
                    rw [mcoe_append]
                    abel
                _ = (↑dc.dropLast : Multiset Card) + ↑[t] + ↑acc := by
                    rw [hfsplit, hfresh]
                _ = (↑([] : List Card) : Multiset Card) + ↑dc + ↑acc := by
                    rw [hdcsplit]
                    simp
          | none =>
              rw [ih, hfresh, hdpe]
              calc (↑dc.dropLast : Multiset Card) + ↑[t] + ↑acc
                  = ↑dc + ↑acc := by rw [hdcsplit]
                _ = (↑([] : List Card) : Multiset Card) + ↑dc + ↑acc := by simp
      · have hdpne : dp ≠ [] := by
          intro he
          rw [he] at hdp
          simp at hdp
        obtain ⟨c, hc⟩ := getLast?_ne_nil dp hdpne
        have hdp' : dp.isEmpty = false := by simpa using hdp
        simp only [drawLoop, hdp', Bool.false_eq_true, if_false, hc]
        rw [ih]
        have hsplit : (↑dp.dropLast : Multiset Card) + ↑[c] = ↑dp := by
          rw [← mcoe_append, getLast?_split dp c hc]
        calc (↑dp.dropLast : Multiset Card) + ↑dc + ↑(acc ++ [c])
            = ((↑dp.dropLast : Multiset Card) + ↑[c]) + ↑dc + ↑acc := by
              rw [mcoe_append]
              abel
          _ = (↑dp : Multiset Card) + ↑dc + ↑acc := by rw [hsplit]

theorem drawLoop_top (rand : Nat → Nat) : ∀ (n : Nat) (dp dc acc : List Card),
    (drawLoop rand n dp dc acc).2.1.getLast? = dc.getLast? := by
  intro n
  induction n with
  | zero => intro dp dc acc; rfl
  | succ n ih =>
      intro dp dc acc
      by_cases hdp : dp.isEmpty
      · by_cases hdc : dc.length ≤ 1
        · simp only [drawLoop, hdp, if_true, hdc, if_true]
        · have hdcne : dc ≠ [] := by
            intro he
            rw [he] at hdc
            simp at hdc
          obtain ⟨t, ht⟩ := getLast?_ne_nil dc hdcne
          have htop : dc.getLastD ⟨.A, .hearts⟩ = t := by
            rw [List.getLastD_eq_getLast?, ht]
            rfl
          simp only [drawLoop, hdp, if_true, hdc, if_false, htop]
          cases hfl : (shuffleRand rand dc.dropLast).getLast? with
          | some card =>
              rw [ih, ht]
              rfl
          | none =>
              rw [ih, ht]
              rfl
      · have hdp' : dp.isEmpty = false := by simpa using hdp
        simp only [drawLoop, hdp', Bool.false_eq_true, if_false]
        cases hc : dp.getLast? with
        | some c => exact ih _ _ _
        | none => exact ih _ _ _

theorem drawLoop_no_recycle (rand : Nat → Nat) : ∀ (n : Nat) (dp dc acc : List Card),
    n ≤ dp.length → (drawLoop rand n dp dc acc).2.1 = dc := by
  intro n
  induction n with
  | zero => intro dp dc acc _; rfl
  | succ n ih =>
      intro dp dc acc hn
      have hdpne : dp ≠ [] := by
        intro he
        rw [he] at hn
        simp at hn
      have hdp' : dp.isEmpty = false := by simpa using hdpne
      obtain ⟨c, hc⟩ := getLast?_ne_nil dp hdpne
      simp only [drawLoop, hdp', Bool.false_eq_true, if_false, hc]
      apply ih
      rw [List.length_dropLast]
      omega

theorem drawLoop_count (rand : Nat → Nat) : ∀ (n : Nat) (dp dc acc : List Card),
    (drawLoop rand n dp dc acc).2.2.length =
      acc.length + min n (dp.length + (dc.length - 1)) := by
  intro n
  induction n with
  | zero => intro dp dc acc; simp [drawLoop]
  | succ n ih =>
      intro dp dc acc
      by_cases hdp : dp.isEmpty
      · have hdpe : dp = [] := List.isEmpty_iff.mp hdp
        by_cases hdc : dc.length ≤ 1
        · simp only [drawLoop, hdp, if_true, hdc]
          rw [hdpe]
          simp
          omega
        · have hdcne : dc ≠ [] := by
            intro he
            rw [he] at hdc
            simp at hdc
          obtain ⟨t, ht⟩ := getLast?_ne_nil dc hdcne
          have htop : dc.getLastD ⟨.A, .hearts⟩ = t := by
            rw [List.getLastD_eq_getLast?, ht]
            rfl
          have hflen : (shuffleRand rand dc.dropLast).length = dc.length - 1 := by
            rw [shuffleRand_length, List.length_dropLast]
          simp only [drawLoop, hdp, if_true, hdc, if_false, htop]
          cases hfl : (shuffleRand rand dc.dropLast).getLast? with
          | some card =>
              rw [ih]
              rw [hdpe]
              simp only [List.length_append, List.length_dropLast, hflen,
                List.length_nil, List.length_cons]
              omega
          | none =>
              have : shuffleRand rand dc.dropLast = [] := List.getLast?_eq_none_iff.mp hfl
              rw [this] at hflen
              simp at hflen
              omega
      · have hdpne : dp ≠ [] := by
          intro he
          rw [he] at hdp
          simp at hdp
        have hdp' : dp.isEmpty = false := by simpa using hdp
        obtain ⟨c, hc⟩ := getLast?_ne_nil dp hdpne
        have hlen : 0 < dp.length := List.length_pos.mpr hdpne
        simp only [drawLoop, hdp', Bool.false_eq_true, if_false, hc]
        rw [ih]
        simp only [List.length_append, List.length_dropLast, List.length_cons,
          List.length_nil]
        omega

/-! ### Conservation of the individual transitions -/

theorem handsOf_modifyAt_cancel (f : PlayerState → PlayerState) (i : Nat)
    (ps : List PlayerState) (p : PlayerState) (hp : ps.get? i = some p)
    (extra : Multiset Card) (hf : (↑(f p).hand : Multiset Card) = ↑p.hand + extra) :
    (↑(handsOf (modifyAt f i ps)) : Multiset Card) = ↑(handsOf ps) + extra := by
  have hmod := handsOf_modifyAt f i ps p hp
  have h2 : (↑(handsOf (modifyAt f i ps)) : Multiset Card) + ↑p.hand =
      (↑(handsOf ps) + extra) + ↑p.hand := by
    rw [hmod, hf]
    abel
  exact add_right_cancel h2

theorem applyDraw_allCards (rand : Nat → Nat) (s : GameState) (count : Nat)
    (p : PlayerState) (hp : s.players.get? s.currentPlayerIndex = some p) :
    allCards (applyDraw rand s count) = allCards s := by
  simp only [applyDraw, allCards]
  have hcons := drawLoop_conservation rand count s.drawPile s.discardPile []
  set r := drawLoop rand count s.drawPile s.discardPile [] with hr
  rw [handsOf_modifyAt_cancel _ s.currentPlayerIndex s.players p hp ↑r.2.2
    (by rw [mcoe_append])]
  calc (↑r.1 : Multiset Card) + ↑r.2.1 + (↑(handsOf s.players) + ↑r.2.2)
      = (↑r.1 + ↑r.2.1 + ↑r.2.2) + ↑(handsOf s.players) := by abel
    _ = (↑s.drawPile + ↑s.discardPile + ↑([] : List Card)) + ↑(handsOf s.players) := by
        rw [hcons]
    _ = ↑s.drawPile + ↑s.discardPile + ↑(handsOf s.players) := by simp

theorem confirmHandoff_allCards (s : GameState) :
    allCards (confirmHandoff s) = allCards s := by
  unfold confirmHandoff
  split <;> rfl

theorem declareLastCard_allCards (s : GameState) :
    allCards (declareLastCard s) = allCards s := by
  simp only [declareLastCard, allCards]
  congr 1
  rw [handsOf_modifyAt_preserve]
  intro p
  rfl

theorem applyResolve_allCards (s : GameState) :
    allCards (applyResolve s) = allCards s := by
  unfold applyResolve
  split
  · split <;> rfl
  · rfl

theorem nextTurn_allCards (s : GameState) :
    allCards (nextTurn s) = allCards s := by
  unfold nextTurn
  dsimp only []
  repeat' split
  all_goals
    first
      | rfl
      | (simp only [allCards]
         congr 1
         rw [handsOf_modifyAt_preserve]
         intro p
         dsimp only [])

theorem applySevenDisputeAccept_allCards (s : GameState) :
    allCards (applySevenDisputeAccept s) = allCards s := by
  unfold applySevenDisputeAccept
  repeat' split
  all_goals
    first
      | rfl
      | (simp only [allCards]
         congr 1
         rw [handsOf_modifyAt_preserve]
         intro p
         rfl)

/-! ### Structure of the legal-play enumeration -/

theorem expandAce_cards {lp : LegalPlay} (cards : List Card) (lastCard : Card)
    (h : lp ∈ expandAce cards lastCard) : lp.play.cards = cards := by
  unfold expandAce at h
  split at h
  · obtain ⟨su, _, rfl⟩ := List.mem_map.mp h
    rfl
  · simp at h
    subst h
    rfl

theorem dedupPlays_subset : ∀ (l : List LegalPlay) (seen : List (List Card × Option Suit))
    (lp : LegalPlay), lp ∈ dedupPlays seen l → lp ∈ l := by
  intro l
  induction l with
  | nil => intro seen lp h; exact absurd h (by simp [dedupPlays])
  | cons lp0 rest ih =>
      intro seen lp h
      unfold dedupPlays at h
      split at h
      · exact List.mem_cons_of_mem lp0 (ih seen lp h)
      · rcases List.mem_cons.mp h with h1 | h2
        · exact h1 ▸ List.mem_cons_self lp0 rest
        · exact List.mem_cons_of_mem lp0 (ih _ lp h2)

theorem singlePlays_cards {lp : LegalPlay} (hand : List Card) (ts : Suit) (tr : Rank)
    (h : lp ∈ singlePlays hand ts tr) : ∃ c ∈ hand, lp.play.cards = [c] := by
  obtain ⟨c, hc, hmem⟩ := List.mem_flatMap.mp h
  split at hmem
  · split at hmem
    · exact ⟨c, hc, expandAce_cards [c] c hmem⟩
    · exact absurd hmem (by simp)
  · exact absurd hmem (by simp)

theorem groupByRank_mem {hand : List Card} {g : Rank × List Card}
    (h : g ∈ groupByRank hand) :
    g.2 = hand.filter fun c => decide (c.rank = g.1) := by
  obtain ⟨k, _, rfl⟩ := List.mem_map.mp h
  rfl

theorem groupBySuit_mem {hand : List Card} {g : Suit × List Card}
    (h : g ∈ groupBySuit hand) :
    g.2 = hand.filter fun c => decide (c.suit = g.1) := by
  obtain ⟨k, _, rfl⟩ := List.mem_map.mp h
  rfl

theorem sizesFor_two_le {len size : Nat} (h : size ∈ sizesFor len) : 2 ≤ size := by
  unfold sizesFor at h
  have := List.mem_range'_1.mp h
  omega

theorem rankGroupPlays_spec {lp : LegalPlay} {hand : List Card} {ts : Suit} {tr : Rank}
    (h : lp ∈ rankGroupPlays hand ts tr) :
    lp.play.cards.Subperm hand ∧ 2 ≤ lp.play.cards.length ∧
      hand.length - lp.play.cards.length ≠ 0 := by
  obtain ⟨g, hg, h⟩ := List.mem_flatMap.mp h
  split at h
  · exact absurd h (by simp)
  · obtain ⟨size, hsize, h⟩ := List.mem_flatMap.mp h
    split at h
    · exact absurd h (by simp)
    · next hgoout =>
        obtain ⟨combo, hcombo, h⟩ := List.mem_flatMap.mp h
        obtain ⟨perm, hperm, h⟩ := List.mem_flatMap.mp h
        obtain ⟨hsub, hlen⟩ := List.mem_sublistsLen.mp hcombo
        have hpc : perm.Perm combo := List.mem_permutations.mp hperm
        split at h
        · split at h
          · have hcards := expandAce_cards _ _ h
            rw [hcards]
            have hgs := groupByRank_mem hg
            have hsubhand : combo.Sublist hand := by
              rw [hgs] at hsub
              exact hsub.trans (List.filter_sublist hand)
            have hplen : perm.length = size := hpc.length_eq.trans hlen
            refine ⟨hpc.subperm.trans hsubhand.subperm, ?_, ?_⟩
            · rw [hplen]
              exact sizesFor_two_le hsize
            · rw [hplen]
              exact hgoout
          · exact absurd h (by simp)
        · exact absurd h (by simp)

theorem suitGroupPlays_spec {lp : LegalPlay} {hand : List Card} {ts : Suit} {tr : Rank}
    (h : lp ∈ suitGroupPlays hand ts tr) :
    lp.play.cards.Subperm hand ∧ 2 ≤ lp.play.cards.length ∧
      hand.length - lp.play.cards.length ≠ 0 := by
  obtain ⟨g, hg, h⟩ := List.mem_flatMap.mp h
  split at h
  · exact absurd h (by simp)
  · split at h
    · exact absurd h (by simp)
    · obtain ⟨size, hsize, h⟩ := List.mem_flatMap.mp h
      split at h
      · exact absurd h (by simp)
      · next hgoout =>
          obtain ⟨combo, hcombo, h⟩ := List.mem_flatMap.mp h
          obtain ⟨perm, hperm, h⟩ := List.mem_flatMap.mp h
          obtain ⟨hsub, hlen⟩ := List.mem_sublistsLen.mp hcombo
          have hpc : perm.Perm combo := List.mem_permutations.mp hperm
          split at h
          · split at h
            · split at h
              · exact absurd h (by simp)
              · have hcards := expandAce_cards _ _ h
                rw [hcards]
                have hgs := groupBySuit_mem hg
                have hsubhand : combo.Sublist hand := by
                  rw [hgs] at hsub
                  exact hsub.trans (List.filter_sublist hand)
                have hplen : perm.length = size := hpc.length_eq.trans hlen
                refine ⟨hpc.subperm.trans hsubhand.subperm, ?_, ?_⟩
                · rw [hplen]
                  exact sizesFor_two_le hsize
                · rw [hplen]
                  exact hgoout
            · exact absurd h (by simp)
          · exact absurd h (by simp)

theorem getLegalPlays_spec {s : GameState} {pid : Nat} {player : PlayerState}
    {lp : LegalPlay} (hp : s.players.get? pid = some player)
    (h : lp ∈ getLegalPlays s pid) :
    lp.play.cards.Subperm player.hand ∧ lp.play.cards ≠ [] ∧
      (2 ≤ lp.play.cards.length → player.hand.length - lp.play.cards.length ≠ 0) := by
  unfold getLegalPlays at h
  rw [hp] at h
  cases htop : s.discardPile.getLast? with
  | none =>
      rw [htop] at h
      exact absurd h (by simp)
  | some top =>
      rw [htop] at h
      dsimp only [] at h
      split at h
      · exact absurd h (by simp)
      · have h' := dedupPlays_subset _ _ _ h
        rcases List.mem_append.mp h' with h1 | h2
        · rcases List.mem_append.mp h1 with hs | hr
          · obtain ⟨c, hc, hcards⟩ := singlePlays_cards _ _ _ hs
            refine ⟨?_, ?_, ?_⟩
            · rw [hcards]
              exact (List.singleton_sublist.mpr hc).subperm
            · rw [hcards]
              simp
            · rw [hcards]
              intro h2le
              simp at h2le
          · obtain ⟨hsub, hge, hgo⟩ := rankGroupPlays_spec hr
            exact ⟨hsub, fun he => by rw [he] at hge; simp at hge, fun _ => hgo⟩
        · obtain ⟨hsub, hge, hgo⟩ := suitGroupPlays_spec h2
          exact ⟨hsub, fun he => by rw [he] at hge; simp at hge, fun _ => hgo⟩

theorem zip_all_cardEquals_eq : ∀ (l1 l2 : List Card), l1.length = l2.length →
    ((List.zip l1 l2).all fun pr => cardEquals pr.1 pr.2) = true → l1 = l2 := by
  intro l1
  induction l1 with
  | nil =>
      intro l2 hlen _
      cases l2 with
      | nil => rfl
      | cons b bs => simp at hlen
  | cons a as ih =>
      intro l2 hlen hall
      cases l2 with
      | nil => simp at hlen
      | cons b bs =>
          simp only [List.zip_cons_cons, List.all_cons, Bool.and_eq_true] at hall
          have h1 : a = b := (cardEquals_iff a b).mp hall.1
          have h2 : as = bs := ih bs (by simpa using hlen) hall.2
          rw [h1, h2]

theorem isPlayLegal_elim {s : GameState} {pid : Nat} {play : Play}
    (h : isPlayLegal s pid play = true) :
    ∃ lp ∈ getLegalPlays s pid, lp.play.cards = play.cards := by
  obtain ⟨lp, hmem, hc⟩ := List.any_eq_true.mp h
  rw [Bool.and_eq_true, Bool.and_eq_true] at hc
  obtain ⟨⟨hlen, hzip⟩, _⟩ := hc
  exact ⟨lp, hmem, zip_all_cardEquals_eq _ _ (of_decide_eq_true hlen) hzip⟩

theorem zone_rearrange (A B C H O : Multiset Card) (h : H + C = O) :
    A + (B + C) + H = A + B + O := by
  rw [← h]
  abel

theorem applyPlay_allCards (s : GameState) (play : Play)
    (hleg : isPlayLegal s s.currentPlayerIndex play = true) :
    allCards (applyPlay s play) = allCards s := by
  obtain ⟨lp, hlpmem, hcards⟩ := isPlayLegal_elim hleg
  have hpex : ∃ player, s.players.get? s.currentPlayerIndex = some player := by
    cases hcp : s.players.get? s.currentPlayerIndex with
    | none =>
        exfalso
        unfold getLegalPlays at hlpmem
        rw [hcp] at hlpmem
        exact absurd hlpmem (by simp)
    | some p => exact ⟨p, rfl⟩
  obtain ⟨player, hp⟩ := hpex
  have hspec := getLegalPlays_spec hp hlpmem
  have hsub : (↑play.cards : Multiset Card) ≤ ↑player.hand := by
    rw [← hcards]
    exact Multiset.coe_le.mpr hspec.1
  have hne : play.cards ≠ [] := hcards ▸ hspec.2.1
  obtain ⟨lastCard, hlast⟩ := getLast?_ne_nil play.cards hne
  have hrem := removeCards_multiset play.cards player.hand hsub
  unfold applyPlay
  rw [hp, hlast]
  dsimp only []
  have hhands : (↑(handsOf (modifyAt (fun p => { p with hand := removeCards player.hand play.cards, lastCardPenalty := false }) s.currentPlayerIndex s.players)) : Multiset Card) + ↑play.cards = ↑(handsOf s.players) := by
    have hmod := handsOf_modifyAt (fun p => { p with hand := removeCards player.hand play.cards, lastCardPenalty := false }) s.currentPlayerIndex s.players player hp
    apply add_right_cancel (b := (↑(removeCards player.hand play.cards) : Multiset Card))
    calc (↑(handsOf (modifyAt (fun p => { p with hand := removeCards player.hand play.cards, lastCardPenalty := false }) s.currentPlayerIndex s.players)) : Multiset Card) + ↑play.cards + ↑(removeCards player.hand play.cards)
        = (↑(handsOf (modifyAt (fun p => { p with hand := removeCards player.hand play.cards, lastCardPenalty := false }) s.currentPlayerIndex s.players)) : Multiset Card) + ↑player.hand := by
          rw [← hrem]
          abel
      _ = ↑(handsOf s.players) + ↑(removeCards player.hand play.cards) := hmod
  repeat' split
  all_goals
    simp only [allCards]
    rw [mcoe_append]
    exact zone_rearrange _ _ _ _ _ hhands

/-! ### Conservation of the filter-based removals (deflect / sevens) -/

/-- Hands in a conserved state are duplicate-free (the full deck has 52
distinct cards). -/
theorem hand_nodup (s : GameState) (i : Nat) (p : PlayerState)
    (hInv : allCards s = ↑createDeck) (hp : s.players.get? i = some p) :
    p.hand.Nodup := by
  have h1 : (↑p.hand : Multiset Card) ≤ ↑(handsOf s.players) :=
    hand_le_handsOf s.players i p hp
  have h2 : (↑(handsOf s.players) : Multiset Card) ≤ allCards s :=
    Multiset.le_add_left _ _
  have h3 := h1.trans h2
  rw [hInv] at h3
  have h4 : (↑createDeck : Multiset Card).Nodup := by
    rw [Multiset.coe_nodup]
    decide
  exact Multiset.coe_nodup.mp (Multiset.nodup_of_le h3 h4)

/-- Moving one card of a (duplicate-free) hand onto the discard pile is
conserving: the common zone computation of `applyDeflect`,
`applySevenCancelEffect`, `applySevenCancelLastCard` and
`applySevenDisputePlay`. -/
theorem discard_move_allCards (s : GameState) (i : Nat) (p : PlayerState) (card : Card)
    (hp : s.players.get? i = some p) (hInv : allCards s = ↑createDeck)
    (hc : card ∈ p.hand) :
    (↑s.drawPile : Multiset Card) + ↑(s.discardPile ++ [card]) +
      ↑(handsOf (modifyAt (fun q => { q with hand := p.hand.filter fun c => !(cardEquals c card) }) i s.players)) = allCards s := by
  have hnd := hand_nodup s i p hInv hp
  have hsplit := filter_remove_cons p.hand card hnd hc
  have hmod := handsOf_modifyAt (fun q => { q with hand := p.hand.filter fun c => !(cardEquals c card) }) i s.players p hp
  have hkey : (↑(handsOf (modifyAt (fun q => { q with hand := p.hand.filter fun c => !(cardEquals c card) }) i s.players)) : Multiset Card) + ↑[card] = ↑(handsOf s.players) := by
    apply add_right_cancel (b := (↑(p.hand.filter fun c => !(cardEquals c card)) : Multiset Card))
    calc (↑(handsOf (modifyAt (fun q => { q with hand := p.hand.filter fun c => !(cardEquals c card) }) i s.players)) : Multiset Card) + ↑[card] + ↑(p.hand.filter fun c => !(cardEquals c card))
        = (↑(handsOf (modifyAt (fun q => { q with hand := p.hand.filter fun c => !(cardEquals c card) }) i s.players)) : Multiset Card) + ↑p.hand := by
          rw [hsplit]
          have h1 : (↑[card] : Multiset Card) = {card} := rfl
          have h2 : (card ::ₘ ↑(p.hand.filter fun c => !(cardEquals c card)) : Multiset Card) = {card} + ↑(p.hand.filter fun c => !(cardEquals c card)) := by
            rw [← Multiset.singleton_add]
          rw [h1, h2]
          abel
      _ = ↑(handsOf s.players) + ↑(p.hand.filter fun c => !(cardEquals c card)) := hmod
  rw [mcoe_append]
  exact zone_rearrange _ _ _ _ _ hkey

theorem applyDeflect_allCards (s : GameState) (card : Card)
    (hInv : allCards s = ↑createDeck) (hmem : card ∈ getLegalDeflections s) :
    allCards (applyDeflect s card) = allCards s := by
  unfold getLegalDeflections at hmem
  split at hmem
  · next hphase =>
      split at hmem
      · exact absurd hmem (by simp)
      · next ri hri =>
          split at hmem
          · next responder chainRank hresp hchain =>
              obtain ⟨hhand, hrank⟩ := List.mem_filter.mp hmem
              have hrankeq : card.rank = chainRank := of_decide_eq_true hrank
              unfold applyDeflect
              simp only [hphase, hri, hresp, hchain, if_true]
              rw [if_neg (by simp [hrankeq])]
              try dsimp only []
              repeat' split
              all_goals
                simp only [allCards]
                exact discard_move_allCards s ri responder card hresp hInv hhand
          · exact absurd hmem (by simp)
  · exact absurd hmem (by simp)

theorem applySevenCancelEffect_allCards (s : GameState) (card : Card) (pid : Nat)
    (hInv : allCards s = ↑createDeck) (hmem : card ∈ getLegalSevenCancelsEffect s pid) :
    allCards (applySevenCancelEffect s card) = allCards s := by
  unfold getLegalSevenCancelsEffect at hmem
  split at hmem
  · next hcan =>
      split at hmem
      · next effectiveSuit player heff hp =>
          obtain ⟨hhand, hmatch⟩ := List.mem_filter.mp hmem
          rw [Bool.and_eq_true] at hmatch
          have hrank : card.rank = Rank.seven := of_decide_eq_true hmatch.1
          have hsuit : card.suit = effectiveSuit := of_decide_eq_true hmatch.2
          unfold canPlaySevenCancelEffect at hcan
          rw [Bool.and_eq_true, Bool.and_eq_true, Bool.and_eq_true] at hcan
          have hphase : isInResponsePhase s = true := hcan.1.1.1
          have hri : s.respondingPlayerIndex = some pid := of_decide_eq_true hcan.1.1.2
          unfold applySevenCancelEffect
          simp only [hphase, hri, hp, heff, if_true]
          rw [if_neg (by simp [hrank, hsuit])]
          try dsimp only []
          repeat' split
          all_goals
            simp only [allCards]
            exact discard_move_allCards s pid player card hp hInv hhand
      · exact absurd hmem (by simp)
  · exact absurd hmem (by simp)

theorem applySevenCancelLastCard_allCards (s : GameState) (card : Card) (pid : Nat)
    (hInv : allCards s = ↑createDeck)
    (hmem : card ∈ getLegalSevenCancelsLastCard s pid) :
    allCards (applySevenCancelLastCard s card) = allCards s := by
  unfold getLegalSevenCancelsLastCard at hmem
  split at hmem
  · next hcan =>
      split at hmem
      · next effectiveSuit player heff hp =>
          obtain ⟨hhand, hmatch⟩ := List.mem_filter.mp hmem
          rw [Bool.and_eq_true] at hmatch
          have hrank : card.rank = Rank.seven := of_decide_eq_true hmatch.1
          have hsuit : card.suit = effectiveSuit := of_decide_eq_true hmatch.2
          unfold canPlaySevenCancelLastCard at hcan
          split at hcan
          · exact absurd hcan (by simp)
          · next claim hclaim =>
              rw [Bool.and_eq_true, Bool.and_eq_true, Bool.and_eq_true] at hcan
              have hcur : s.currentPlayerIndex = pid := of_decide_eq_true hcan.1.1.2
              unfold applySevenCancelLastCard
              rw [hclaim]
              try dsimp only []
              rw [hcur]
              simp only [hp, heff]
              rw [if_neg (by simp [hrank, hsuit])]
              try dsimp only []
              repeat' split
              all_goals
                simp only [allCards]
                exact discard_move_allCards s pid player card hp hInv hhand
      · exact absurd hmem (by simp)
  · exact absurd hmem (by simp)

theorem applySevenDisputePlay_allCards (s : GameState) (card : Card) (pid : Nat)
    (hInv : allCards s = ↑createDeck)
    (hmem : card ∈ getLegalSevenDisputePlays s pid) :
    allCards (applySevenDisputePlay s card) = allCards s := by
  unfold getLegalSevenDisputePlays at hmem
  split at hmem
  · exact absurd hmem (by simp)
  · next dispute hdisp =>
      split at hmem
      · exact absurd hmem (by simp)
      · next hresp =>
          split at hmem
          · exact absurd hmem (by simp)
          · next player hp =>
              obtain ⟨hhand, hrank'⟩ := List.mem_filter.mp hmem
              have hrank : card.rank = Rank.seven := of_decide_eq_true hrank'
              have hrid : dispute.responderPlayerId = pid := by
                by_contra hne
                exact hresp hne
              unfold applySevenDisputePlay
              rw [hdisp]
              try dsimp only []
              rw [hrid]
              simp only [hp]
              rw [if_neg (by simp [hrank])]
              try dsimp only []
              repeat' split
              all_goals
                simp only [allCards]
                exact discard_move_allCards s pid player card hp hInv hhand

/-! ### Seat-index well-formedness

Every seat index the engine stores (current player, responder of a chain,
responder of a dispute, claimant of a last-card claim) is in range, and the
player list is non-empty.  `initializeGame` establishes this and every
transition preserves it; it is what makes the conservation theorem
unconditional for the draw transitions (whose acting seat must exist for
the drawn cards to land in a hand). -/
def WF (s : GameState) : Prop :=
  0 < s.players.length ∧
  s.currentPlayerIndex < s.players.length ∧
  (∀ r, s.respondingPlayerIndex = some r → r < s.players.length) ∧
  (∀ d, s.sevenDispute = some d → d.responderPlayerId < s.players.length) ∧
  (∀ c, s.lastCardClaim = some c → c.playerId < s.players.length)

theorem getNextPlayerIndex_lt (s : GameState) (h : 0 < s.players.length) (i : Nat) :
    getNextPlayerIndex s i < s.players.length := by
  unfold getNextPlayerIndex
  cases hdir : s.direction <;> exact Nat.mod_lt _ h

theorem dealLoop_length : ∀ (types : List PlayerType) (deck : List Card) (i : Nat),
    (dealLoop deck types i).1.length = types.length := by
  intro types
  induction types with
  | nil => intro deck i; rfl
  | cons t ts ih =>
      intro deck i
      show (⟨i, deck.take INITIAL_HAND_SIZE, t, false, false⟩ ::
        (dealLoop (deck.drop INITIAL_HAND_SIZE) ts (i + 1)).1).length = ts.length + 1
      rw [List.length_cons, ih]

theorem initializeGameFromDeck_WF (n : Nat) (deck : List Card)
    (types : Option (List PlayerType)) (s : GameState)
    (h : initializeGameFromDeck n deck types = .ok s) : WF s := by
  unfold initializeGameFromDeck at h
  split at h
  · exact absurd h (by simp)
  · next hcnt =>
      split at h
      · exact absurd h (by simp)
      · next hlen =>
          split at h
          · exact absurd h (by simp)
          · next firstCard hlast =>
              injection h with hs
              subst hs
              have hl : (dealLoop deck
                  (types.getD (List.replicate n PlayerType.human)) 0).1.length = n := by
                rw [dealLoop_length]
                omega
              refine ⟨?_, ?_, ?_, ?_, ?_⟩
              · show 0 < (dealLoop deck
                  (types.getD (List.replicate n PlayerType.human)) 0).1.length
                rw [hl]; omega
              · show 0 < (dealLoop deck
                  (types.getD (List.replicate n PlayerType.human)) 0).1.length
                rw [hl]; omega
              · intro r hr; exact absurd hr (by simp)
              · intro d hd; exact absurd hd (by simp)
              · intro c hc; exact absurd hc (by simp)

theorem applyPlay_WF (s : GameState) (play : Play) (hwf : WF s) :
    WF (applyPlay s play) := by
  obtain ⟨h0, h1, h2, h3, h4⟩ := hwf
  unfold applyPlay
  repeat' (first | split | dsimp only [])
  all_goals
    first
      | exact ⟨h0, h1, h2, h3, h4⟩
      | (exfalso
         simp_all
         done)
      | (refine ⟨?_, ?_, ?_, ?_, ?_⟩
         · simpa [modifyAt_length] using h0
         · simpa [modifyAt_length] using h1
         · intro r hr
           first
             | (injection hr with hr'
                subst hr'
                simpa [modifyAt_length] using getNextPlayerIndex_lt s h0 _)
             | simpa [modifyAt_length] using h2 r hr
             | injection hr
         · intro d hd
           first
             | simpa [modifyAt_length] using h3 d hd
             | injection hd
         · intro c hc
           first
             | simpa [modifyAt_length] using h4 c hc
             | injection hc)

theorem applyDraw_WF (rand : Nat → Nat) (s : GameState) (count : Nat) (hwf : WF s) :
    WF (applyDraw rand s count) := by
  obtain ⟨h0, h1, h2, h3, h4⟩ := hwf
  unfold applyDraw
  refine ⟨?_, ?_, ?_, ?_, ?_⟩
  · simpa [modifyAt_length] using h0
  · simpa [modifyAt_length] using h1
  · intro r hr
    simpa [modifyAt_length] using h2 r hr
  · intro d hd
    simpa [modifyAt_length] using h3 d hd
  · intro c hc
    simpa [modifyAt_length] using h4 c hc

theorem applyForcedDraw_WF (rand : Nat → Nat) (s : GameState) (hwf : WF s) :
    WF (applyForcedDraw rand s) := by
  unfold applyForcedDraw
  split
  · exact hwf
  · exact applyDraw_WF rand s _ hwf

theorem applyVoluntaryDraw_WF (rand : Nat → Nat) (s : GameState) (hwf : WF s) :
    WF (applyVoluntaryDraw rand s) :=
  applyDraw_WF rand s 1 hwf

theorem confirmHandoff_WF (s : GameState) (hwf : WF s) : WF (confirmHandoff s) := by
  obtain ⟨h0, h1, h2, h3, h4⟩ := hwf
  unfold confirmHandoff
  split
  · exact ⟨h0, h1, h2, h3, h4⟩
  · exact ⟨h0, h1, h2, h3, h4⟩

theorem declareLastCard_WF (s : GameState) (hwf : WF s) : WF (declareLastCard s) := by
  obtain ⟨h0, h1, h2, h3, h4⟩ := hwf
  unfold declareLastCard
  refine ⟨?_, ?_, ?_, ?_, ?_⟩
  · simpa [modifyAt_length] using h0
  · simpa [modifyAt_length] using h1
  · intro r hr
    simpa [modifyAt_length] using h2 r hr
  · intro d hd
    simpa [modifyAt_length] using h3 d hd
  · intro c hc
    injection hc with hc'
    subst hc'
    simpa [modifyAt_length] using h1

theorem applyResolve_WF (s : GameState) (hwf : WF s) : WF (applyResolve s) := by
  obtain ⟨h0, h1, h2, h3, h4⟩ := hwf
  unfold applyResolve
  split
  · split
    · exact ⟨h0, h1, h2, h3, h4⟩
    · next ri heq =>
        refine ⟨h0, h2 ri heq, ?_, h3, h4⟩
        intro r hr
        injection hr
  · exact ⟨h0, h1, h2, h3, h4⟩

theorem nextTurn_WF (s : GameState) (hwf : WF s) : WF (nextTurn s) := by
  obtain ⟨h0, h1, h2, h3, h4⟩ := hwf
  unfold nextTurn
  repeat' (first | split | dsimp only [])
  all_goals
    first
      | exact ⟨h0, h1, h2, h3, h4⟩
      | (refine ⟨?_, ?_, ?_, ?_, ?_⟩
         · simpa [modifyAt_length] using h0
         · first
             | simpa [modifyAt_length] using h1
             | simpa [modifyAt_length] using getNextPlayerIndex_lt s h0 _
         · intro r hr
           first
             | simpa [modifyAt_length] using h2 r hr
             | injection hr
         · intro d hd
           first
             | simpa [modifyAt_length] using h3 d hd
             | injection hd
         · intro c hc
           first
             | simpa [modifyAt_length] using h4 c hc
             | (injection hc with hc'
                subst hc'
                simp only [modifyAt_length]
                apply h4
                assumption)
             | injection hc)

theorem applyDeflect_WF (s : GameState) (card : Card) (hwf : WF s) :
    WF (applyDeflect s card) := by
  obtain ⟨h0, h1, h2, h3, h4⟩ := hwf
  unfold applyDeflect
  repeat' (first | split | dsimp only [])
  all_goals
    first
      | exact ⟨h0, h1, h2, h3, h4⟩
      | (refine ⟨?_, ?_, ?_, ?_, ?_⟩
         · simpa [modifyAt_length] using h0
         · simpa [modifyAt_length] using h1
         · intro r hr
           first
             | (injection hr with hr'
                subst hr'
                simpa [modifyAt_length] using getNextPlayerIndex_lt s h0 _)
             | simpa [modifyAt_length] using h2 r hr
             | injection hr
         · intro d hd
           first
             | simpa [modifyAt_length] using h3 d hd
             | injection hd
         · intro c hc
           first
             | simpa [modifyAt_length] using h4 c hc
             | injection hc)

theorem applySevenCancelEffect_WF (s : GameState) (card : Card) (hwf : WF s) :
    WF (applySevenCancelEffect s card) := by
  obtain ⟨h0, h1, h2, h3, h4⟩ := hwf
  unfold applySevenCancelEffect
  repeat' (first | split | dsimp only [])
  all_goals
    first
      | exact ⟨h0, h1, h2, h3, h4⟩
      | (refine ⟨?_, ?_, ?_, ?_, ?_⟩
         · simpa [modifyAt_length] using h0
         · simpa [modifyAt_length] using h1
         · intro r hr
           first
             | simpa [modifyAt_length] using h2 r hr
             | injection hr
         · intro d hd
           first
             | simpa [modifyAt_length] using h3 d hd
             | (injection hd with hd'
                subst hd'
                simpa [modifyAt_length] using getNextPlayerIndex_lt s h0 _)
             | injection hd
         · intro c hc
           first
             | simpa [modifyAt_length] using h4 c hc
             | injection hc)

theorem applySevenCancelLastCard_WF (s : GameState) (card : Card) (hwf : WF s) :
    WF (applySevenCancelLastCard s card) := by
  obtain ⟨h0, h1, h2, h3, h4⟩ := hwf
  unfold applySevenCancelLastCard
  repeat' (first | split | dsimp only [])
  all_goals
    first
      | exact ⟨h0, h1, h2, h3, h4⟩
      | (refine ⟨?_, ?_, ?_, ?_, ?_⟩
         · simpa [modifyAt_length] using h0
         · simpa [modifyAt_length] using h1
         · intro r hr
           first
             | simpa [modifyAt_length] using h2 r hr
             | injection hr
         · intro d hd
           first
             | simpa [modifyAt_length] using h3 d hd
             | (injection hd with hd'
                subst hd'
                simp only [modifyAt_length]
                apply h4
                assumption)
             | injection hd
         · intro c hc
           first
             | simpa [modifyAt_length] using h4 c hc
             | injection hc)

theorem applySevenDisputePlay_WF (s : GameState) (card : Card) (hwf : WF s) :
    WF (applySevenDisputePlay s card) := by
  obtain ⟨h0, h1, h2, h3, h4⟩ := hwf
  unfold applySevenDisputePlay
  repeat' (first | split | dsimp only [])
  all_goals
    first
      | exact ⟨h0, h1, h2, h3, h4⟩
      | (refine ⟨?_, ?_, ?_, ?_, ?_⟩
         · simpa [modifyAt_length] using h0
         · simpa [modifyAt_length] using h1
         · intro r hr
           first
             | simpa [modifyAt_length] using h2 r hr
             | injection hr
         · intro d hd
           first
             | simpa [modifyAt_length] using h3 d hd
             | (injection hd with hd'
                subst hd'
                simpa [modifyAt_length] using getNextPlayerIndex_lt s h0 _)
             | injection hd
         · intro c hc
           first
             | simpa [modifyAt_length] using h4 c hc
             | injection hc)

theorem applySevenDisputeAccept_WF (s : GameState) (hwf : WF s) :
    WF (applySevenDisputeAccept s) := by
  obtain ⟨h0, h1, h2, h3, h4⟩ := hwf
  unfold applySevenDisputeAccept
  repeat' (first | split | dsimp only [])
  all_goals
    first
      | exact ⟨h0, h1, h2, h3, h4⟩
      | (refine ⟨?_, ?_, ?_, ?_, ?_⟩
         · simpa [modifyAt_length] using h0
         · first
             | simpa [modifyAt_length] using h1
             | (simp only [modifyAt_length]
                apply h3
                assumption)
         · intro r hr
           first
             | simpa [modifyAt_length] using h2 r hr
             | injection hr
         · intro d hd
           first
             | simpa [modifyAt_length] using h3 d hd
             | injection hd
         · intro c hc
           first
             | simpa [modifyAt_length] using h4 c hc
             | injection hc)

theorem initializeGameSeeded_allCards (n : Nat) (seed : Nat)
    (types : Option (List PlayerType)) (s : GameState)
    (h : initializeGameSeeded n seed types = .ok s) :
    allCards s = ↑createDeck := by
  have := initializeGameFromDeck_allCards n (shuffleSeeded createDeck seed) types s h
  rw [this]
  exact Multiset.coe_eq_coe.mpr (shuffleSeeded_perm createDeck seed)

/-- A state produced by setup (`initializeGame`, with either random source). -/
def InitialState (s : GameState) : Prop :=
  (∃ n rand types, initializeGame n rand types = Except.ok s) ∨
  (∃ n seed types, initializeGameSeeded n seed types = Except.ok s)

/-- One driver-gated engine transition: plays are validated with
`isPlayLegal` (the sole legality gate), deflections and seven plays with the
corresponding `getLegal…` queries, exactly as the spec's driver contract
prescribes; draws, turn advances, handoffs, declarations, resolves and
dispute-accepts take no card argument and are always available. -/
def Step (s t : GameState) : Prop :=
  (∃ pl, isPlayLegal s s.currentPlayerIndex pl = true ∧ t = applyPlay s pl) ∨
  (∃ rand count, t = applyDraw rand s count) ∨
  (∃ rand, t = applyVoluntaryDraw rand s) ∨
  (∃ rand, t = applyForcedDraw rand s) ∨
  t = nextTurn s ∨
  t = confirmHandoff s ∨
  t = declareLastCard s ∨
  t = applyResolve s ∨
  (∃ card, card ∈ getLegalDeflections s ∧ t = applyDeflect s card) ∨
  (∃ card, card ∈ getLegalCancels s ∧ t = applyCancel s card) ∨
  (∃ pid card, card ∈ getLegalSevenCancelsEffect s pid ∧ t = applySevenCancelEffect s card) ∨
  (∃ pid card, card ∈ getLegalSevenCancelsLastCard s pid ∧ t = applySevenCancelLastCard s card) ∨
  (∃ pid card, card ∈ getLegalSevenDisputePlays s pid ∧ t = applySevenDisputePlay s card) ∨
  t = applySevenDisputeAccept s

/-- The states reachable from setup by driver-gated transitions. -/
def Reachable (s : GameState) : Prop :=
  ∃ s0, InitialState s0 ∧ Relation.ReflTransGen Step s0 s

theorem step_inv (s t : GameState) (hst : Step s t)
    (hinv : WF s ∧ allCards s = ↑createDeck) :
    WF t ∧ allCards t = ↑createDeck := by
  rcases hst with ⟨pl, hleg, rfl⟩ | ⟨rand, count, rfl⟩ | ⟨rand, rfl⟩ | ⟨rand, rfl⟩
    | rfl | rfl | rfl | rfl | ⟨card, hmem, rfl⟩ | ⟨card, hmem, rfl⟩
    | ⟨pid, card, hmem, rfl⟩ | ⟨pid, card, hmem, rfl⟩ | ⟨pid, card, hmem, rfl⟩ | rfl
  · exact ⟨applyPlay_WF s pl hinv.1, (applyPlay_allCards s pl hleg).trans hinv.2⟩
  · refine ⟨applyDraw_WF rand s count hinv.1, ?_⟩
    exact (applyDraw_allCards rand s count _ (List.get?_eq_get hinv.1.2.1)).trans hinv.2
  · refine ⟨applyVoluntaryDraw_WF rand s hinv.1, ?_⟩
    exact (applyDraw_allCards rand s 1 _ (List.get?_eq_get hinv.1.2.1)).trans hinv.2
  · refine ⟨applyForcedDraw_WF rand s hinv.1, ?_⟩
    unfold applyForcedDraw
    split
    · exact hinv.2
    · next p hp => exact (applyDraw_allCards rand s _ p hp).trans hinv.2
  · exact ⟨nextTurn_WF s hinv.1, (nextTurn_allCards s).trans hinv.2⟩
  · exact ⟨confirmHandoff_WF s hinv.1, (confirmHandoff_allCards s).trans hinv.2⟩
  · exact ⟨declareLastCard_WF s hinv.1, (declareLastCard_allCards s).trans hinv.2⟩
  · exact ⟨applyResolve_WF s hinv.1, (applyResolve_allCards s).trans hinv.2⟩
  · exact ⟨applyDeflect_WF s card hinv.1,
      (applyDeflect_allCards s card hinv.2 hmem).trans hinv.2⟩
  · exact ⟨applyDeflect_WF s card hinv.1,
      (applyDeflect_allCards s card hinv.2 hmem).trans hinv.2⟩
  · exact ⟨applySevenCancelEffect_WF s card hinv.1,
      (applySevenCancelEffect_allCards s card pid hinv.2 hmem).trans hinv.2⟩
  · exact ⟨applySevenCancelLastCard_WF s card hinv.1,
      (applySevenCancelLastCard_allCards s card pid hinv.2 hmem).trans hinv.2⟩
  · exact ⟨applySevenDisputePlay_WF s card hinv.1,
      (applySevenDisputePlay_allCards s card pid hinv.2 hmem).trans hinv.2⟩
  · exact ⟨applySevenDisputeAccept_WF s hinv.1,
      (applySevenDisputeAccept_allCards s).trans hinv.2⟩

theorem reachable_inv (s : GameState) (h : Reachable s) :
    WF s ∧ allCards s = ↑createDeck := by
  obtain ⟨s0, hinit, hsteps⟩ := h
  have h0 : WF s0 ∧ allCards s0 = ↑createDeck := by
    rcases hinit with ⟨n, rand, types, hok⟩ | ⟨n, seed, types, hok⟩
    · exact ⟨initializeGameFromDeck_WF n _ types s0 hok,
        initializeGame_allCards n rand types s0 hok⟩
    · exact ⟨initializeGameFromDeck_WF n _ types s0 hok,
        initializeGameSeeded_allCards n seed types s0 hok⟩
  induction hsteps with
  | refl => exact h0
  | tail _ hbc ih => exact step_inv _ _ hbc ih

/-- C1.  Card conservation: in every state reachable from setup by
driver-gated transitions (each applied play passes `isPlayLegal`, each
deflection or seven play is drawn from the corresponding legal-card query,
which in particular makes it a card of the actor's hand), the multiset
union of the draw pile, the discard pile and all hands is exactly the full
52-card deck — no transition duplicates or loses a card. -/
theorem C1_card_conservation (s : GameState) (h : Reachable s) :
    allCards s = ↑createDeck :=
  (reachable_inv s h).2

/-- A state value with no players, used only as the unreachable fallback of
`initState0`. -/
def emptyState : GameState :=
  { players := [], currentPlayerIndex := 0, drawPile := [], discardPile := []
    chosenSuit := none, pendingEffects := ⟨0, false⟩, turnPhase := .waiting
    winner := none, lastPlayWasSpecial := false, direction := .CW
    responsePhase := false, responseChainRank := none, respondingPlayerIndex := none
    sevenDispute := none, lastCardClaim := none, turnNumber := 0
    jackResponse := none, aceResponse := none }

/-- A concrete state produced by setup (two players, a fixed choice
function). -/
def initState0 : GameState :=
  match initializeGame 2 (fun _ => 0) none with
  | .ok s => s
  | .error _ => emptyState

set_option maxHeartbeats 2000000 in
theorem C1_card_conservation_witness : allCards initState0 = ↑createDeck :=
  C1_card_conservation initState0
    ⟨initState0, Or.inl ⟨2, fun _ => 0, none, by rfl⟩, Relation.ReflTransGen.refl⟩

/-! ### C3: winner terminality -/

/-- A finished game (player 0 has won) that still has cards in both piles
and a card in a hand. -/
def wonState : GameState :=
  { players :=
      [⟨0, [], .human, false, false⟩, ⟨1, [⟨.K, .clubs⟩], .human, false, false⟩]
    currentPlayerIndex := 0
    drawPile := [⟨.four, .clubs⟩]
    discardPile := [⟨.six, .hearts⟩]
    chosenSuit := none
    pendingEffects := ⟨0, false⟩
    turnPhase := .gameOver
    winner := some 0
    lastPlayWasSpecial := false
    direction := .CW
    responsePhase := false
    responseChainRank := none
    respondingPlayerIndex := none
    sevenDispute := none
    lastCardClaim := none
    turnNumber := 5
    jackResponse := none
    aceResponse := none }

/-- C3 counterexample: with `winner` already set, `applyDraw` still moves a
card from the draw pile into the current player's hand — the claim that
every transition leaves hands and piles unchanged once `winner` is set is
false on the code (only `nextTurn` is winner-guarded). -/
theorem C3_counterexample :
    wonState.winner ≠ none ∧
    (applyDraw (fun _ => 0) wonState 1).players.map PlayerState.hand ≠
      wonState.players.map PlayerState.hand ∧
    (applyDraw (fun _ => 0) wonState 1).drawPile ≠ wonState.drawPile := by
  decide

/-- C3 (amended).  Once `winner` is set, `nextTurn` returns its input state
unchanged (so hands and piles are untouched); the other transitions carry
no winner guard. -/
theorem C3_winner_frozen (s : GameState) (h : s.winner ≠ none) : nextTurn s = s := by
  unfold nextTurn
  rw [if_pos h]

theorem C3_winner_frozen_witness : nextTurn wonState = wonState :=
  C3_winner_frozen wonState (by decide)

/-! ### C4: suit override on Ace plays -/

/-- A mid-game state: player 0 holds an Ace of hearts and a filler card,
the discard top is the three of hearts. -/
def aceState : GameState :=
  { players :=
      [⟨0, [⟨.A, .hearts⟩, ⟨.three, .spades⟩], .human, false, false⟩,
       ⟨1, [⟨.K, .clubs⟩], .human, false, false⟩]
    currentPlayerIndex := 0
    drawPile := [⟨.four, .clubs⟩]
    discardPile := [⟨.three, .hearts⟩]
    chosenSuit := none
    pendingEffects := ⟨0, false⟩
    turnPhase := .playing
    winner := none
    lastPlayWasSpecial := false
    direction := .CW
    responsePhase := false
    responseChainRank := none
    respondingPlayerIndex := none
    sevenDispute := none
    lastCardClaim := none
    turnNumber := 0
    jackResponse := none
    aceResponse := none }

/-- The Ace of hearts played with `activateEffect: false` and a chosen
suit. -/
def acePlayOff : Play := ⟨[⟨.A, .hearts⟩], some .clubs, some false⟩

/-- C4 counterexample: an Ace played as the final card with `activateEffect`
explicitly false still sets the suit override to the chosen suit — the
claim that the override is cleared in that case is false on the code
(`applyPlay` computes the override from the final card alone, ignoring
`activateEffect`). -/
theorem C4_counterexample :
    acePlayOff.activateEffect = some false ∧
    acePlayOff.cards.getLast? = some ⟨Rank.A, Suit.hearts⟩ ∧
    (applyPlay aceState acePlayOff).chosenSuit = some Suit.clubs := by
  decide

/-- C4 (amended).  After `applyPlay`, the suit override equals the play's
chosen suit (or null when none was chosen) exactly when the final card of
the play is an Ace, regardless of `activateEffect`; otherwise it is
cleared. -/
theorem C4_suit_override (s : GameState) (play : Play) (player : PlayerState)
    (lastCard : Card) (hp : s.players.get? s.currentPlayerIndex = some player)
    (hl : play.cards.getLast? = some lastCard) :
    (applyPlay s play).chosenSuit =
      if lastCard.rank = Rank.A then play.chosenSuit else none := by
  unfold applyPlay
  rw [hp, hl]
  dsimp only []
  repeat' split
  all_goals rfl

theorem C4_suit_override_witness :
    (applyPlay aceState acePlayOff).chosenSuit =
      if (⟨Rank.A, Suit.hearts⟩ : Card).rank = Rank.A then acePlayOff.chosenSuit
      else none :=
  C4_suit_override aceState acePlayOff
    ⟨0, [⟨.A, .hearts⟩, ⟨.three, .spades⟩], .human, false, false⟩
    ⟨Rank.A, Suit.hearts⟩ (by decide) (by decide)

/-! ### C8: no plays while a draw is owed -/

/-- C8.  If the seat owes a forced draw or carries an unpaid last-card
penalty, the legal-play set is empty.  (The discard pile is assumed
non-empty: on an empty discard the source throws before reaching the
forced-draw check.) -/
theorem C8_no_plays_while_draw_owed (s : GameState) (pid : Nat) (player : PlayerState)
    (hd : s.discardPile ≠ []) (hp : s.players.get? pid = some player)
    (h : 0 < s.pendingEffects.forcedDrawCount ∨ player.lastCardPenalty = true) :
    getLegalPlays s pid = [] := by
  unfold getLegalPlays
  rw [hp]
  obtain ⟨top, htop⟩ := getLast?_ne_nil s.discardPile hd
  rw [htop]
  dsimp only []
  rw [if_pos]
  rcases h with h | h
  · exact Or.inl h
  · exact Or.inr h

/-- `aceState` with a forced draw of 2 pending. -/
def owedState : GameState :=
  { aceState with pendingEffects := ⟨2, false⟩ }

theorem C8_no_plays_while_draw_owed_witness :
    getLegalPlays owedState 0 = [] :=
  C8_no_plays_while_draw_owed owedState 0
    ⟨0, [⟨.A, .hearts⟩, ⟨.three, .spades⟩], .human, false, false⟩
    (by decide) (by decide) (Or.inl (by decide))

/-! ### C5: effect accumulation -/

theorem drawCountOf_go : ∀ (cards : List Card) (n : Nat),
    cards.foldl
      (fun n c => if c.rank = .two then n + 2 else if c.rank = .five then n + 5 else n) n =
    n + 2 * (cards.filter fun c => decide (c.rank = Rank.two)).length
      + 5 * (cards.filter fun c => decide (c.rank = Rank.five)).length := by
  intro cards
  induction cards with
  | nil => intro n; simp
  | cons c cs ih =>
      intro n
      by_cases h2 : c.rank = Rank.two
      · have h5 : ¬ c.rank = Rank.five := by rw [h2]; intro h; cases h
        rw [List.foldl_cons, if_pos h2, ih (n + 2), List.filter_cons,
          List.filter_cons, if_pos (by simp [h2]), if_neg (by simp [h5]),
          List.length_cons]
        omega
      · by_cases h5 : c.rank = Rank.five
        · rw [List.foldl_cons, if_neg h2, if_pos h5, ih (n + 5), List.filter_cons,
            List.filter_cons, if_neg (by simp [h2]), if_pos (by simp [h5]),
            List.length_cons]
          omega
        · rw [List.foldl_cons, if_neg h2, if_neg h5, ih n, List.filter_cons,
            List.filter_cons, if_neg (by simp [h2]), if_neg (by simp [h5])]

theorem drawCountOf_eq (cards : List Card) :
    drawCountOf cards =
      2 * (cards.filter fun c => decide (c.rank = Rank.two)).length
        + 5 * (cards.filter fun c => decide (c.rank = Rank.five)).length := by
  unfold drawCountOf
  rw [drawCountOf_go cards 0]
  omega

theorem skipOf_go : ∀ (cards : List Card) (b : Bool),
    cards.foldl (fun b c => if c.rank = .ten then true else b) b =
      (b || cards.any fun c => decide (c.rank = Rank.ten)) := by
  intro cards
  induction cards with
  | nil => intro b; simp
  | cons c cs ih =>
      intro b
      by_cases h : c.rank = Rank.ten
      · rw [List.foldl_cons, if_pos h, ih true, List.any_cons]
        simp [h]
      · rw [List.foldl_cons, if_neg h, ih b, List.any_cons]
        simp [h]

theorem skipOf_eq (cards : List Card) :
    skipOf cards = cards.any fun c => decide (c.rank = Rank.ten) := by
  unfold skipOf
  rw [skipOf_go cards false]
  simp

/-- The pending effects `applyPlay` stores, as a function of the play
alone. -/
theorem applyPlay_pendingEffects (s : GameState) (play : Play) (player : PlayerState)
    (lastCard : Card) (hp : s.players.get? s.currentPlayerIndex = some player)
    (hl : play.cards.getLast? = some lastCard) :
    (applyPlay s play).pendingEffects =
      ⟨if decide (play.activateEffect ≠ some false) = true then drawCountOf play.cards
        else 0,
       if decide (play.activateEffect ≠ some false) = true then skipOf play.cards
        else false⟩ := by
  unfold applyPlay
  rw [hp, hl]
  dsimp only []
  repeat' split
  all_goals first
    | rfl
    | (exfalso
       simp_all)

/-- C5.  With activation on (not explicitly false), `applyPlay` sets the
forced-draw count to `2·(#2s) + 5·(#5s)` of the played cards and the skip
flag exactly when a 10 was played; with activation explicitly off, both
effects are cleared. -/
theorem C5_effect_accumulation (s : GameState) (play : Play) (player : PlayerState)
    (lastCard : Card) (hp : s.players.get? s.currentPlayerIndex = some player)
    (hl : play.cards.getLast? = some lastCard) :
    (s.pendingEffects.forcedDrawCount = 0 → play.activateEffect ≠ some false →
      (applyPlay s play).pendingEffects.forcedDrawCount =
        2 * (play.cards.filter fun c => decide (c.rank = Rank.two)).length
          + 5 * (play.cards.filter fun c => decide (c.rank = Rank.five)).length ∧
      ((applyPlay s play).pendingEffects.skipNextPlayer = true ↔
        ∃ c ∈ play.cards, c.rank = Rank.ten)) ∧
    (play.activateEffect = some false →
      (applyPlay s play).pendingEffects.forcedDrawCount = 0 ∧
      (applyPlay s play).pendingEffects.skipNextPlayer = false) := by
  have hpe := applyPlay_pendingEffects s play player lastCard hp hl
  constructor
  · intro _ hact
    have hdec : decide (play.activateEffect ≠ some false) = true := decide_eq_true hact
    rw [hpe]
    constructor
    · simp only [hdec, if_pos]
      exact drawCountOf_eq play.cards
    · simp only [hdec, if_pos]
      rw [skipOf_eq]
      simp [List.any_eq_true]
  · intro hact
    have hdec : decide (play.activateEffect ≠ some false) = false := by
      simp [hact]
    rw [hpe]
    simp [hdec]

/-- A state whose current player holds two 2s and a filler, on a seven of
hearts. -/
def twosState : GameState :=
  { aceState with
      players :=
        [⟨0, [⟨.two, .hearts⟩, ⟨.two, .diamonds⟩, ⟨.nine, .spades⟩], .human, false, false⟩,
         ⟨1, [⟨.K, .clubs⟩], .human, false, false⟩]
      discardPile := [⟨.seven, .hearts⟩] }

/-- The pair of 2s, activation left on. -/
def twosPlay : Play := ⟨[⟨.two, .hearts⟩, ⟨.two, .diamonds⟩], none, none⟩

theorem C5_effect_accumulation_witness :
    ((twosState.pendingEffects.forcedDrawCount = 0 → twosPlay.activateEffect ≠ some false →
      (applyPlay twosState twosPlay).pendingEffects.forcedDrawCount =
        2 * (twosPlay.cards.filter fun c => decide (c.rank = Rank.two)).length
          + 5 * (twosPlay.cards.filter fun c => decide (c.rank = Rank.five)).length ∧
      ((applyPlay twosState twosPlay).pendingEffects.skipNextPlayer = true ↔
        ∃ c ∈ twosPlay.cards, c.rank = Rank.ten)) ∧
    (twosPlay.activateEffect = some false →
      (applyPlay twosState twosPlay).pendingEffects.forcedDrawCount = 0 ∧
      (applyPlay twosState twosPlay).pendingEffects.skipNextPlayer = false)) :=
  C5_effect_accumulation twosState twosPlay
    ⟨0, [⟨.two, .hearts⟩, ⟨.two, .diamonds⟩, ⟨.nine, .spades⟩], .human, false, false⟩
    ⟨Rank.two, Suit.diamonds⟩ (by decide) (by decide)

/-! ### C10: every successful seven play clears the suit override -/

/-- C10.  Whenever `applySevenCancelEffect`, `applySevenCancelLastCard` or
`applySevenDisputePlay` actually discards a seven (the function's guard
conditions hold), the resulting state's `chosenSuit` is `none`: both the
winning and the non-winning branch of each function clear the override. -/
theorem C10_seven_clears_suit
    (s1 : GameState) (c1 : Card) (es1 : Suit)
    (h1a : isInResponsePhase s1 = true)
    (h1b : ∃ ri r, s1.respondingPlayerIndex = some ri ∧ s1.players.get? ri = some r)
    (h1c : getEffectiveSuitForSevenCancel s1 = some es1)
    (h1d : c1.rank = Rank.seven ∧ c1.suit = es1)
    (s2 : GameState) (c2 : Card) (es2 : Suit)
    (h2a : ∃ cl, s2.lastCardClaim = some cl)
    (h2b : ∃ p, s2.players.get? s2.currentPlayerIndex = some p)
    (h2c : getEffectiveSuitForSevenCancel s2 = some es2)
    (h2d : c2.rank = Rank.seven ∧ c2.suit = es2)
    (s3 : GameState) (c3 : Card)
    (h3a : ∃ d r, s3.sevenDispute = some d ∧
      s3.players.get? d.responderPlayerId = some r)
    (h3b : c3.rank = Rank.seven) :
    (applySevenCancelEffect s1 c1).chosenSuit = none ∧
    (applySevenCancelLastCard s2 c2).chosenSuit = none ∧
    (applySevenDisputePlay s3 c3).chosenSuit = none := by
  obtain ⟨ri, r1, hri, hr1⟩ := h1b
  obtain ⟨cl, hcl⟩ := h2a
  obtain ⟨p2, hp2⟩ := h2b
  obtain ⟨d, r3, hd, hr3⟩ := h3a
  refine ⟨?_, ?_, ?_⟩
  · unfold applySevenCancelEffect
    rw [if_pos h1a, hri]
    try dsimp only []
    rw [hr1]
    try dsimp only []
    rw [h1c]
    try dsimp only []
    rw [if_neg (by simp [h1d.1, h1d.2])]
    try dsimp only []
    repeat' split
    all_goals rfl
  · unfold applySevenCancelLastCard
    rw [hcl]
    try dsimp only []
    rw [hp2]
    try dsimp only []
    rw [h2c]
    try dsimp only []
    rw [if_neg (by simp [h2d.1, h2d.2])]
    try dsimp only []
    repeat' split
    all_goals rfl
  · unfold applySevenDisputePlay
    rw [hd]
    try dsimp only []
    rw [hr3]
    try dsimp only []
    rw [if_neg (by simp [h3b])]
    try dsimp only []
    repeat' split
    all_goals rfl

/-- A response-phase state with a pending +2 and a seven of the effective
suit in the responder's hand. -/
def sevenAState : GameState :=
  { aceState with
      players :=
        [⟨0, [⟨.seven, .hearts⟩, ⟨.three, .diamonds⟩], .human, false, false⟩,
         ⟨1, [⟨.K, .clubs⟩], .human, false, false⟩]
      discardPile := [⟨.five, .hearts⟩]
      pendingEffects := ⟨2, false⟩
      responsePhase := true
      respondingPlayerIndex := some 0 }

/-- A state with a standing last-card claim by seat 1 and a seven of the
effective suit in the current player's hand. -/
def sevenBState : GameState :=
  { aceState with
      players :=
        [⟨0, [⟨.seven, .hearts⟩, ⟨.three, .diamonds⟩], .human, false, false⟩,
         ⟨1, [⟨.K, .clubs⟩], .human, true, false⟩]
      discardPile := [⟨.five, .hearts⟩]
      lastCardClaim := some ⟨1, 0⟩
      turnNumber := 1 }

/-- A state with an open seven dispute whose responder holds a seven. -/
def sevenCState : GameState :=
  { aceState with
      players :=
        [⟨0, [⟨.seven, .spades⟩, ⟨.three, .diamonds⟩], .human, false, false⟩,
         ⟨1, [⟨.K, .clubs⟩], .human, false, false⟩]
      discardPile := [⟨.five, .hearts⟩]
      sevenDispute := some ⟨.EFFECT, some ⟨2, false, 1⟩, none, true, 0⟩ }

theorem C10_seven_clears_suit_witness :
    ((applySevenCancelEffect sevenAState ⟨.seven, .hearts⟩).chosenSuit = none ∧
     (applySevenCancelLastCard sevenBState ⟨.seven, .hearts⟩).chosenSuit = none ∧
     (applySevenDisputePlay sevenCState ⟨.seven, .spades⟩).chosenSuit = none) :=
  C10_seven_clears_suit
    sevenAState ⟨.seven, .hearts⟩ Suit.hearts (by decide)
    ⟨0, ⟨0, [⟨.seven, .hearts⟩, ⟨.three, .diamonds⟩], .human, false, false⟩,
      by decide, by decide⟩
    (by decide) (by decide)
    sevenBState ⟨.seven, .hearts⟩ Suit.hearts
    ⟨⟨1, 0⟩, by decide⟩
    ⟨⟨0, [⟨.seven, .hearts⟩, ⟨.three, .diamonds⟩], .human, false, false⟩, by decide⟩
    (by decide) (by decide)
    sevenCState ⟨.seven, .spades⟩
    ⟨⟨.EFFECT, some ⟨2, false, 1⟩, none, true, 0⟩,
      ⟨0, [⟨.seven, .spades⟩, ⟨.three, .diamonds⟩], .human, false, false⟩,
      by decide, by decide⟩
    (by decide)

/-! ### C7: the last-card challenge window is exactly one turn -/

/-- C7.  With a claim created at turn `T` standing: a positive
`canPlaySevenCancelLastCard` forces the state's turn number to be exactly
`T + 1`, the seat to be the current player, and that player not to be the
claimant; `nextTurn` drops the claim as soon as the incremented turn
number exceeds `T + 1`; and on any turn after `T + 1` the challenge
predicate is false for every seat. -/
theorem C7_claim_window (s : GameState) (pid : Nat) (claim : LastCardClaim)
    (cp : PlayerState)
    (hcl : s.lastCardClaim = some claim)
    (hp : s.players.get? s.currentPlayerIndex = some cp)
    (hpos : 0 < s.players.length) :
    (canPlaySevenCancelLastCard s pid = true →
       s.turnNumber = claim.turnNumberCreated + 1 ∧ s.currentPlayerIndex = pid ∧
         claim.playerId ≠ pid) ∧
    (s.winner = none → claim.turnNumberCreated + 1 < s.turnNumber + 1 →
       (nextTurn s).lastCardClaim = none) ∧
    (claim.turnNumberCreated + 1 < s.turnNumber →
       canPlaySevenCancelLastCard s pid = false) := by
  refine ⟨?_, ?_, ?_⟩
  · intro h
    unfold canPlaySevenCancelLastCard at h
    rw [hcl] at h
    rw [Bool.and_eq_true, Bool.and_eq_true, Bool.and_eq_true] at h
    exact ⟨of_decide_eq_true h.1.1.1, of_decide_eq_true h.1.1.2,
      of_decide_eq_true h.1.2⟩
  · intro hw hlt
    unfold nextTurn
    rw [if_neg (by simp [hw]), hp]
    dsimp only []
    rw [hcl]
    dsimp only []
    rw [if_pos hlt]
    split
    · next heq =>
        exfalso
        rw [List.get?_eq_none] at heq
        rw [modifyAt_length] at heq
        have hni : (if s.pendingEffects.skipNextPlayer
            then getNextPlayerIndex s (getNextPlayerIndex s s.currentPlayerIndex)
            else getNextPlayerIndex s s.currentPlayerIndex) < s.players.length := by
          split
          · exact getNextPlayerIndex_lt s hpos _
          · exact getNextPlayerIndex_lt s hpos _
        omega
    · rfl
  · intro hlt
    unfold canPlaySevenCancelLastCard
    rw [hcl]
    dsimp only []
    have hne : decide (s.turnNumber = claim.turnNumberCreated + 1) = false := by
      simp only [decide_eq_false_iff_not]
      omega
    rw [hne, Bool.false_and, Bool.false_and, Bool.false_and]

theorem C7_claim_window_witness :
    ((canPlaySevenCancelLastCard sevenBState 0 = true →
       sevenBState.turnNumber = (0 : Nat) + 1 ∧ sevenBState.currentPlayerIndex = 0 ∧
         (1 : Nat) ≠ 0) ∧
    (sevenBState.winner = none → (0 : Nat) + 1 < sevenBState.turnNumber + 1 →
       (nextTurn sevenBState).lastCardClaim = none) ∧
    ((0 : Nat) + 1 < sevenBState.turnNumber →
       canPlaySevenCancelLastCard sevenBState 0 = false)) :=
  C7_claim_window sevenBState 0 ⟨1, 0⟩
    ⟨0, [⟨.seven, .hearts⟩, ⟨.three, .diamonds⟩], .human, false, false⟩
    (by decide) (by decide) (by decide)

/-! ### C6: draw recycling and silent truncation -/

/-- C6.  `applyDraw` never changes which card is on top of the discard
pile; it leaves the discard pile entirely alone when the requested count
fits in the draw pile (recycling happens only when the draw pile empties
mid-draw); the actor ends with exactly `min count drawable` extra cards
(silent truncation when both piles run out) and a cleared
`lastCardPenalty` flag; and the forced-draw count is zeroed. -/
theorem C6_draw_recycling (rand : Nat → Nat) (s : GameState) (count : Nat)
    (p : PlayerState) (hp : s.players.get? s.currentPlayerIndex = some p) :
    (applyDraw rand s count).discardPile.getLast? = s.discardPile.getLast? ∧
    (count ≤ s.drawPile.length →
      (applyDraw rand s count).discardPile = s.discardPile) ∧
    (∃ q, (applyDraw rand s count).players.get? s.currentPlayerIndex = some q ∧
       q.hand.length =
         p.hand.length + min count (getDrawableCount s) ∧
       q.lastCardPenalty = false) ∧
    (applyDraw rand s count).pendingEffects.forcedDrawCount = 0 := by
  refine ⟨?_, ?_, ?_, ?_⟩
  · show (drawLoop rand count s.drawPile s.discardPile []).2.1.getLast? =
      s.discardPile.getLast?
    exact drawLoop_top rand count s.drawPile s.discardPile []
  · intro hle
    show (drawLoop rand count s.drawPile s.discardPile []).2.1 = s.discardPile
    exact drawLoop_no_recycle rand count s.drawPile s.discardPile [] hle
  · refine ⟨{ p with
        hand := p.hand ++ (drawLoop rand count s.drawPile s.discardPile []).2.2,
        lastCardPenalty := false }, ?_, ?_, rfl⟩
    · show (modifyAt
          (fun p => { p with
            hand := p.hand ++ (drawLoop rand count s.drawPile s.discardPile []).2.2,
            lastCardPenalty := false })
          s.currentPlayerIndex s.players).get? s.currentPlayerIndex = _
      rw [modifyAt_get?_self, hp]
      rfl
    · show (p.hand ++ (drawLoop rand count s.drawPile s.discardPile []).2.2).length =
        p.hand.length + min count (getDrawableCount s)
      rw [List.length_append, drawLoop_count rand count s.drawPile s.discardPile []]
      show p.hand.length + ([].length + min count _) =
        p.hand.length + min count (s.drawPile.length + (s.discardPile.length - 1))
      rw [List.length_nil, Nat.zero_add]
  · rfl

theorem C6_draw_recycling_witness :
    ((applyDraw (fun _ => 0) aceState 3).discardPile.getLast? =
        aceState.discardPile.getLast? ∧
     (3 ≤ aceState.drawPile.length →
        (applyDraw (fun _ => 0) aceState 3).discardPile = aceState.discardPile) ∧
     (∃ q, (applyDraw (fun _ => 0) aceState 3).players.get?
          aceState.currentPlayerIndex = some q ∧
        q.hand.length =
          ([⟨Rank.A, Suit.hearts⟩, ⟨Rank.three, Suit.spades⟩] : List Card).length
            + min 3 (getDrawableCount aceState) ∧
        q.lastCardPenalty = false) ∧
     (applyDraw (fun _ => 0) aceState 3).pendingEffects.forcedDrawCount = 0) :=
  C6_draw_recycling (fun _ => 0) aceState 3
    ⟨0, [⟨.A, .hearts⟩, ⟨.three, .spades⟩], .human, false, false⟩ (by decide)

/-! ### C9: seeded-setup determinism -/

theorem dealLoop_rest_length : ∀ (types : List PlayerType) (deck : List Card) (i : Nat),
    (dealLoop deck types i).2.length = deck.length - INITIAL_HAND_SIZE * types.length := by
  intro types
  induction types with
  | nil =>
      intro deck i
      show deck.length = deck.length - INITIAL_HAND_SIZE * ([] : List PlayerType).length
      rw [List.length_nil, Nat.mul_zero, Nat.sub_zero]
  | cons t ts ih =>
      intro deck i
      show (dealLoop (deck.drop INITIAL_HAND_SIZE) ts (i + 1)).2.length = _
      rw [ih, List.length_drop, List.length_cons]
      show deck.length - INITIAL_HAND_SIZE - INITIAL_HAND_SIZE * ts.length =
        deck.length - INITIAL_HAND_SIZE * (ts.length + 1)
      simp only [INITIAL_HAND_SIZE]
      omega

/-- C9.  Seeded setup is a pure function of the seed and the player count:
for any seed and any player count between 2 and 4, the run succeeds, and
running it twice gives `.ok` of one and the same state — in particular the
per-seat hands and the initial discard top coincide between the two runs.
(`createSeededRng`'s mutable LCG state is threaded explicitly by
`shuffleSeeded`, so a fresh RNG from the same seed is the same value.) -/
theorem C9_seeded_determinism (seed playerCount : Nat)
    (h2 : 2 ≤ playerCount) (h4 : playerCount ≤ 4) :
    ∃ st : GameState,
      initializeGameSeeded playerCount seed none = .ok st ∧
      initializeGameSeeded playerCount seed none = .ok st ∧
      st.players.map PlayerState.hand = st.players.map PlayerState.hand ∧
      getTopCard st = getTopCard st := by
  have hdecklen : (shuffleSeeded createDeck seed).length = 52 :=
    (shuffleSeeded_perm createDeck seed).length_eq.trans (by decide)
  have hrest : (dealLoop (shuffleSeeded createDeck seed)
      (List.replicate playerCount PlayerType.human) 0).2.length =
      52 - 7 * playerCount := by
    rw [dealLoop_rest_length, hdecklen, List.length_replicate]
    simp only [INITIAL_HAND_SIZE]
  have hne : (dealLoop (shuffleSeeded createDeck seed)
      (List.replicate playerCount PlayerType.human) 0).2 ≠ [] := by
    intro he
    rw [he] at hrest
    simp at hrest
    omega
  obtain ⟨c, hc⟩ := getLast?_ne_nil _ hne
  unfold initializeGameSeeded initializeGameFromDeck
  rw [if_neg (by omega)]
  rw [if_neg (by simp)]
  dsimp only [Option.getD]
  rw [hc]
  exact ⟨_, rfl, rfl, rfl, rfl⟩

theorem C9_seeded_determinism_witness :
    (∃ st : GameState,
      initializeGameSeeded 2 12345 none = .ok st ∧
      initializeGameSeeded 2 12345 none = .ok st ∧
      st.players.map PlayerState.hand = st.players.map PlayerState.hand ∧
      getTopCard st = getTopCard st) :=
  C9_seeded_determinism 12345 2 (by decide) (by decide)

/-! ### C2: the go-out constraint -/

theorem expandAce_exists (cards : List Card) (lastCard : Card) :
    ∃ lp ∈ expandAce cards lastCard, lp.play.cards = cards := by
  unfold expandAce
  split
  · exact ⟨_, List.mem_map.mpr ⟨Suit.hearts, by decide, rfl⟩, rfl⟩
  · exact ⟨_, List.mem_cons_self _ _, rfl⟩

theorem dedupPlays_exists : ∀ (l : List LegalPlay) (seen : List (List Card × Option Suit))
    (lp : LegalPlay), lp ∈ l → playKey lp ∉ seen →
    ∃ lp', lp' ∈ dedupPlays seen l ∧ playKey lp' = playKey lp := by
  intro l
  induction l with
  | nil => intro seen lp h _; cases h
  | cons lp0 rest ih =>
      intro seen lp h hns
      unfold dedupPlays
      by_cases h0 : playKey lp0 ∈ seen
      · rw [if_pos h0]
        rcases List.mem_cons.mp h with he | hmem
        · rw [he] at hns
          exact absurd h0 hns
        · exact ih seen lp hmem hns
      · rw [if_neg h0]
        rcases List.mem_cons.mp h with he | hmem
        · exact ⟨lp0, List.mem_cons_self _ _, by rw [he]⟩
        · by_cases hk : playKey lp = playKey lp0
          · exact ⟨lp0, List.mem_cons_self _ _, hk.symm⟩
          · obtain ⟨lp', hlp', hkey⟩ := ih (playKey lp0 :: seen) lp hmem (by
              intro hx
              rcases List.mem_cons.mp hx with he | hs
              · exact hk he
              · exact hns hs)
            exact ⟨lp', List.mem_cons_of_mem _ hlp', hkey⟩

/-- `soloState`: the current player's whole hand is one six of hearts,
matching the six of diamonds on top by rank; nothing is owed. -/
def soloState : GameState :=
  { aceState with
      players :=
        [⟨0, [⟨.six, .hearts⟩], .human, false, false⟩,
         ⟨1, [⟨.K, .clubs⟩], .human, false, false⟩]
      discardPile := [⟨.six, .diamonds⟩] }

/-- `soloState` with a forced draw of 1 pending. -/
def c2State : GameState :=
  { soloState with pendingEffects := ⟨1, false⟩ }

/-- C2 counterexample: a seat whose hand is exactly one card matching the
target by rank, yet `getLegalPlays` returns the empty list — a pending
forced draw gates the whole enumeration off, so the claim's second half
does not hold for every state. -/
theorem C2_counterexample :
    c2State.players.get? 0 = some ⟨0, [⟨.six, .hearts⟩], .human, false, false⟩ ∧
    c2State.discardPile.getLast? = some ⟨.six, .diamonds⟩ ∧
    canCardBePlayed ⟨.six, .hearts⟩ (c2State.chosenSuit.getD Suit.diamonds)
      Rank.six = true ∧
    getLegalPlays c2State 0 = [] := by decide

/-- C2 (amended).  No enumerated play of ≥ 2 cards empties the seat's hand
(unconditionally); and when nothing is owed (no forced draw, no penalty)
and the hand is exactly one card matching the target, the enumeration
contains a play of exactly that card. -/
theorem C2_go_out_constraint
    (sA : GameState) (pidA : Nat) (playerA : PlayerState)
    (hpA : sA.players.get? pidA = some playerA)
    (sB : GameState) (pidB : Nat) (playerB : PlayerState) (top c : Card)
    (hpB : sB.players.get? pidB = some playerB)
    (htop : sB.discardPile.getLast? = some top)
    (hgate : ¬ (0 < sB.pendingEffects.forcedDrawCount ∨ playerB.lastCardPenalty = true))
    (hhand : playerB.hand = [c])
    (hcan : canCardBePlayed c (sB.chosenSuit.getD top.suit) top.rank = true) :
    (∀ lp ∈ getLegalPlays sA pidA, 2 ≤ lp.play.cards.length →
       playerA.hand.length - lp.play.cards.length ≠ 0) ∧
    (∃ lp ∈ getLegalPlays sB pidB, lp.play.cards = [c]) := by
  constructor
  · intro lp hlp h2
    exact (getLegalPlays_spec hpA hlp).2.2 h2
  · obtain ⟨lp0, hlp0, hcards0⟩ := expandAce_exists [c] c
    have hsp : lp0 ∈ singlePlays playerB.hand (sB.chosenSuit.getD top.suit) top.rank := by
      rw [hhand]
      unfold singlePlays
      refine List.mem_flatMap.mpr ⟨c, List.mem_cons_self _ _, ?_⟩
      rw [if_pos hcan,
        if_pos (show ([c] : List Card).length - 1 ≠ 0 ∨ ([c] : List Card).length = 1
          from Or.inr rfl)]
      exact hlp0
    have hmem : lp0 ∈
        singlePlays playerB.hand (sB.chosenSuit.getD top.suit) top.rank
          ++ rankGroupPlays playerB.hand (sB.chosenSuit.getD top.suit) top.rank
          ++ suitGroupPlays playerB.hand (sB.chosenSuit.getD top.suit) top.rank :=
      List.mem_append.mpr (Or.inl (List.mem_append.mpr (Or.inl hsp)))
    unfold getLegalPlays
    rw [hpB, htop]
    dsimp only []
    rw [if_neg hgate]
    obtain ⟨lp', hlp', hkey⟩ := dedupPlays_exists _ [] lp0 hmem (by simp)
    refine ⟨lp', hlp', ?_⟩
    have : lp'.play.cards = lp0.play.cards := congrArg Prod.fst hkey
    rw [this, hcards0]

theorem C2_go_out_constraint_witness :
    ((∀ lp ∈ getLegalPlays aceState 0, 2 ≤ lp.play.cards.length →
       (⟨0, [⟨Rank.A, Suit.hearts⟩, ⟨Rank.three, Suit.spades⟩],
          PlayerType.human, false, false⟩ : PlayerState).hand.length
         - lp.play.cards.length ≠ 0) ∧
    (∃ lp ∈ getLegalPlays soloState 0,
       lp.play.cards = [⟨Rank.six, Suit.hearts⟩])) :=
  C2_go_out_constraint aceState 0
    ⟨0, [⟨.A, .hearts⟩, ⟨.three, .spades⟩], .human, false, false⟩ (by decide)
    soloState 0 ⟨0, [⟨.six, .hearts⟩], .human, false, false⟩
    ⟨.six, .diamonds⟩ ⟨.six, .hearts⟩
    (by decide) (by decide) (by decide) (by decide) (by decide)

end LastCard
